import Mathlib

/-!
# proxiesmanager: a verification development

Shallow embedding of `src/proxiesmanager.go` (package `proxiesmanager`).

Conventions of the embedding.

* A Go method with receiver `m *ProxiesManager` becomes a function that takes the
  manager state and returns the new state next to its Go result.
* A Go pointer `*url.URL` is `Option URL`; `none` is the nil pointer.
* A Go panic is `Except.error` carrying the panic message. A panic of the proxy hook
  `m.Proxy()`, which the transport calls during `httpClient.Do`, unwinds `Do` and
  `proxiedRequest`.
* Go `int` is the 64-bit two's complement integer. It is embedded as `Int`; the
  product in the loop bound of `proxiedRequest` is wrapped with `wrapInt`, since the
  retry multiplier is a free configuration value, and so is the sum `bytesWritten += n`
  of `PrintAll`, since `n` comes from the sink. The increments `useIndex++` and
  `i++` are left unwrapped: they are exact for every value below `intMax`, and every
  statement about them is about a cursor below the length of the pool or a counter
  below the loop bound.
* `url.Parse`, `(*url.URL).String` and `bufio.Scanner` belong to the Go standard
  library; they are modelled after it in sections of their own, and `loadFromBuff`
  takes `url.Parse` and the lines of the scanner as arguments.
* The HTTP client is an oracle: the outcome of `httpClient.Do` may depend on the
  attempt number and on what the transport's proxy hook evaluates to.
-/

namespace proxiesmanager

/-! ## Data model -/

/-- Credentials of a URL (`url.Userinfo`). -/
structure Userinfo where
  username : String
  password : Option String
deriving DecidableEq

/-- The struct `url.URL`. A Go string is a sequence of bytes: a `String` stands for the
Go string whose bytes are the code points of its characters, all below 256, so that
text in ASCII stands for itself. -/
structure URL where
  Scheme : String := ""
  Opaque : String := ""
  User : Option Userinfo := none
  Host : String := ""
  Path : String := ""
  RawPath : String := ""
  OmitHost : Bool := false
  ForceQuery : Bool := false
  RawQuery : String := ""
  Fragment : String := ""
  RawFragment : String := ""
deriving DecidableEq

/-- A `*url.URL`; `none` is nil. -/
abbrev URLPtr := Option URL

/-- A Go `error` value, identified with its message. -/
abbrev GoError := String

/-- The part of `http.Response` that matters here; `Body` is the lines that a scanner
reads from the body. -/
structure Response where
  StatusCode : Int
  Body : List String
deriving DecidableEq

/-- The struct `ProxiesManager`. -/
structure ProxiesManager where
  proxies : List URLPtr
  useIndex : Int
  defaultScheme : String
  defaultProxyTryAttempts : Int
deriving DecidableEq

/-- Largest value of a Go `int` (64 bit). -/
def intMax : Int := 2 ^ 63 - 1

/-- Smallest value of a Go `int` (64 bit). -/
def intMin : Int := -(2 ^ 63)

/-- Two's complement wrap-around of a mathematical integer into the range of `int`. -/
def wrapInt (x : Int) : Int := (x + 2 ^ 63) % 2 ^ 64 - 2 ^ 63

/-! ## Operations -/

/-- Go `NewProxiesManager`: the slice is nil, the cursor is the zero value. -/
def NewProxiesManager : ProxiesManager :=
  { proxies := [], useIndex := 0, defaultScheme := "http", defaultProxyTryAttempts := 2 }

/-- Go `DefaultScheme`. -/
def DefaultScheme (m : ProxiesManager) (scheme : String) : String × ProxiesManager :=
  let m1 := if scheme ≠ "" then { m with defaultScheme := scheme } else m
  (m1.defaultScheme, m1)

/-- Go `DefaultTryAttempts`; the guard is the one of the source, `count < 1`. -/
def DefaultTryAttempts (m : ProxiesManager) (count : Int) : Int × ProxiesManager :=
  let m1 := if count < 1 then { m with defaultProxyTryAttempts := count } else m
  (m1.defaultProxyTryAttempts, m1)

/-- Go `Count`. -/
def Count (m : ProxiesManager) : Int := (m.proxies.length : Int)

/-- Go slice indexing `s[i]` with an `int` index: panics outside `[0, len s)`. -/
def sliceIndex {α : Type} (s : List α) (i : Int) : Except String α :=
  if i < 0 then Except.error "index out of range"
  else match s[i.toNat]? with
    | some a => Except.ok a
    | none => Except.error "index out of range"

/-- Go `Proxy`. The second component is the manager after the call. -/
def Proxy (m : ProxiesManager) : Except String URLPtr × ProxiesManager :=
  if Count m < 1 then (Except.ok none, m)
  else (sliceIndex m.proxies m.useIndex, m)

/-- Go `Next`. The increment is exact for every cursor below the largest `int`, hence
for every cursor inside a pool. -/
def Next (m : ProxiesManager) : ProxiesManager :=
  let m1 := { m with useIndex := m.useIndex + 1 }
  if m1.useIndex ≥ (m1.proxies.length : Int) then { m1 with useIndex := 0 } else m1

/-- Go `NextProxy`: `Next` followed by `Proxy`. -/
def NextProxy (m : ProxiesManager) : Except String URLPtr × ProxiesManager :=
  Proxy (Next m)

/-- Go `rand.Intn`: panics when `n ≤ 0`, otherwise some value of `[0, n)`. The
source of randomness is the argument `seed`; every value of the range is produced
by some seed. -/
def randIntn (seed : Nat) (n : Int) : Except String Int :=
  if n ≤ 0 then Except.error "invalid argument to Intn" else Except.ok ((seed : Int) % n)

/-- Go `SelectRandom`. -/
def SelectRandom (m : ProxiesManager) (seed : Nat) : Except String ProxiesManager :=
  match randIntn seed (Count m) with
  | Except.ok r => Except.ok { m with useIndex := r }
  | Except.error e => Except.error e

/-- Go `InsertProxies`; the argument is the slice behind the (non-nil) pointer. -/
def InsertProxies (m : ProxiesManager) (proxies : List URLPtr) : ProxiesManager :=
  { m with proxies := m.proxies ++ proxies }

/-- Go `strings.Contains`. -/
def stringsContains (s sub : String) : Bool :=
  s.data.tails.any (fun t => sub.data.isPrefixOf t)

/-- One iteration of the scanner loop of `loadFromBuff`. The accumulator is the
manager and the local `loaded`. `parse` stands for `url.Parse`. -/
def loadLine (parse : String → Except GoError URL) (acc : ProxiesManager × Int)
    (line : String) : ProxiesManager × Int :=
  let m := acc.1
  let proxyLine := if !stringsContains line "://" then m.defaultScheme ++ "://" ++ line else line
  match parse proxyLine with
  | Except.error _ => acc
  | Except.ok host =>
    if host.Host = "" then acc
    else
      let host1 := if host.Scheme = "" then { host with Scheme := "http" } else host
      ({ m with proxies := m.proxies ++ [some host1] }, acc.2 + 1)

/-- Go `loadFromBuff` over the lines that the scanner yields. -/
def loadFromBuff (parse : String → Except GoError URL) (m : ProxiesManager)
    (lines : List String) : Int × ProxiesManager :=
  let r := lines.foldl (loadLine parse) (m, 0)
  (r.2, r.1)

/-! ## Request execution with retry -/

/-- Equality of Go results that may be a panic is decidable. -/
instance instDecidableEqExcept {ε α : Type} [DecidableEq ε] [DecidableEq α] :
    DecidableEq (Except ε α)
  | Except.ok a, Except.ok b =>
    if h : a = b then isTrue (by rw [h]) else isFalse (fun h1 => by cases h1; exact h rfl)
  | Except.error a, Except.error b =>
    if h : a = b then isTrue (by rw [h]) else isFalse (fun h1 => by cases h1; exact h rfl)
  | Except.ok _, Except.error _ => isFalse (fun h1 => by cases h1)
  | Except.error _, Except.ok _ => isFalse (fun h1 => by cases h1)

/-- What `httpClient.Do` returns: a response pointer and an error. -/
structure DoResult where
  res : Option Response
  err : Option GoError
deriving DecidableEq

/-- The behaviour of an HTTP client during one `proxiedRequest`: the outcome of the
call to `Do` in attempt `i`, given what the proxy hook of the transport
(`m.Proxy()`, read at the time of the call) returns. -/
abbrev Client := Nat → Except String URLPtr → DoResult

/-- Observable events of `proxiedRequest`, recorded for the statements only. -/
inductive Event where
  | doCall (attempt : Nat) (hook : Except String URLPtr)
  | nextCall
deriving DecidableEq

/-- Result of `proxiedRequest`: the two Go results, the manager afterwards, and the
recorded events. -/
structure CallResult where
  res : Option Response
  err : Option GoError
  state : ProxiesManager
  trace : List Event
deriving DecidableEq

/-- The `for` loop of `proxiedRequest`. `remaining` is the number of iterations the
loop condition still admits, `bound - i`; the bound is the same in every iteration
because the body only changes `useIndex`. `last` holds the locals `res`, `err`. In
every attempt the transport calls the hook `m.Proxy()`; when the hook panics on its
index expression, the panic unwinds `httpClient.Do` and the loop. -/
def retryLoop (client : Client) : Nat → Nat → ProxiesManager → DoResult → List Event →
    Except String CallResult
  | 0, _, m, last, tr => Except.ok ⟨last.res, last.err, m, tr⟩
  | remaining + 1, i, m, _, tr =>
    match (Proxy m).1 with
    | Except.error e => Except.error e
    | Except.ok p =>
      let r := client i (Except.ok p)
      let tr1 := tr ++ [Event.doCall i (Except.ok p)]
      if r.err = none then Except.ok ⟨r.res, r.err, m, tr1⟩
      else retryLoop client remaining (i + 1) (Next m) r (tr1 ++ [Event.nextCall])

/-- The loop bound `m.defaultProxyTryAttempts*m.Count()`, an `int` product. -/
def attemptBound (m : ProxiesManager) : Int :=
  wrapInt (m.defaultProxyTryAttempts * Count m)

/-- Go `proxiedRequest`. The assignment `httpClient.Transport = t` changes the client,
not the manager; its effect, that the transport asks the hook `m.Proxy()` during `Do`,
is the second argument of the client oracle. -/
def proxiedRequest (client : Client) (m : ProxiesManager) : Except String CallResult :=
  if Count m < 1 then Except.ok ⟨none, some "no proxies loaded", m, []⟩
  else retryLoop client (attemptBound m).toNat 0 m ⟨none, none⟩ []

/-- Go `CallRequest`: a nil client is replaced by a fresh `&http.Client{}`, whose
behaviour is `fresh`. -/
def CallRequest (fresh : Client) (httpClient : Option Client) (m : ProxiesManager) :
    Except String CallResult :=
  match httpClient with
  | none => proxiedRequest fresh m
  | some c => proxiedRequest c m

/-! ## Model of the standard library: `net/url`

`url.Parse` and `(*url.URL).String` are not code of the package. The definitions of this
section follow the Go standard library function by function, on byte strings. Only the
escaping modes that `Parse` and `String` use are modelled. -/

/-- The escaping modes of `net/url` used by `Parse` and `String`. -/
inductive Encoding where
  | encodePath
  | encodeHost
  | encodeZone
  | encodeUserPassword
  | encodeFragment
deriving DecidableEq

/-- ASCII letter or digit. -/
def isAlnum (c : Char) : Bool :=
  (97 ≤ c.toNat && c.toNat ≤ 122) || (65 ≤ c.toNat && c.toNat ≤ 90) ||
    (48 ≤ c.toNat && c.toNat ≤ 57)

/-- ASCII letter. -/
def isAlpha (c : Char) : Bool :=
  (97 ≤ c.toNat && c.toNat ≤ 122) || (65 ≤ c.toNat && c.toNat ≤ 90)

/-- ASCII digit. -/
def isDigit (c : Char) : Bool := 48 ≤ c.toNat && c.toNat ≤ 57

/-- Go `ishex`. -/
def ishex (c : Char) : Bool :=
  isDigit c || (97 ≤ c.toNat && c.toNat ≤ 102) || (65 ≤ c.toNat && c.toNat ≤ 70)

/-- Go `unhex`. -/
def unhex (c : Char) : Nat :=
  if isDigit c then c.toNat - 48
  else if 97 ≤ c.toNat && c.toNat ≤ 102 then c.toNat - 97 + 10
  else if 65 ≤ c.toNat && c.toNat ≤ 70 then c.toNat - 65 + 10
  else 0

/-- Go `upperhex[n]`, for a nibble `n`. -/
def upperhex (n : Nat) : Char :=
  if n % 16 < 10 then Char.ofNat (48 + n % 16) else Char.ofNat (55 + n % 16)

/-- Go `shouldEscape`. -/
def shouldEscape (c : Char) (mode : Encoding) : Bool :=
  if isAlnum c then false
  else if (mode = Encoding.encodeHost ∨ mode = Encoding.encodeZone) ∧
      ['!', '$', '&', '\'', '(', ')', '*', '+', ',', ';', '=', ':', '[', ']', '<', '>',
        '"'].contains c then false
  else if ['-', '_', '.', '~'].contains c then false
  else if ['$', '&', '+', ',', '/', ':', ';', '=', '?', '@'].contains c then
    match mode with
    | Encoding.encodePath => c == '?'
    | Encoding.encodeUserPassword => c == '@' || c == '/' || c == '?' || c == ':'
    | Encoding.encodeFragment => false
    | Encoding.encodeHost => true
    | Encoding.encodeZone => true
  else if mode = Encoding.encodeFragment ∧ ['!', '(', ')', '*'].contains c then false
  else true

/-- Go `escape`: every byte that `shouldEscape` marks becomes `%XX`. -/
def escape (mode : Encoding) : List Char → List Char
  | [] => []
  | c :: cs =>
    if shouldEscape c mode then
      '%' :: upperhex (c.toNat / 16) :: upperhex (c.toNat % 16) :: escape mode cs
    else c :: escape mode cs

/-- Go `unescape`: the well-formedness check and the decoding, both left to right. -/
def unescape (mode : Encoding) : List Char → Except GoError (List Char)
  | [] => Except.ok []
  | c :: cs =>
    if c = '%' then
      match cs with
      | h1 :: h2 :: rest =>
        if !ishex h1 || !ishex h2 then Except.error "invalid URL escape"
        else if mode = Encoding.encodeHost ∧ unhex h1 < 8 ∧ ¬ (h1 = '2' ∧ h2 = '5') then
          Except.error "invalid URL escape"
        else if mode = Encoding.encodeZone ∧ ¬ (h1 = '2' ∧ h2 = '5') ∧
            Char.ofNat (unhex h1 * 16 + unhex h2) ≠ ' ' ∧
            shouldEscape (Char.ofNat (unhex h1 * 16 + unhex h2)) Encoding.encodeHost = true then
          Except.error "invalid URL escape"
        else
          match unescape mode rest with
          | Except.ok t => Except.ok (Char.ofNat (unhex h1 * 16 + unhex h2) :: t)
          | Except.error e => Except.error e
      | _ => Except.error "invalid URL escape"
    else if (mode = Encoding.encodeHost ∨ mode = Encoding.encodeZone) ∧ c.toNat < 128 ∧
        c ≠ '+' ∧ shouldEscape c Encoding.encodeHost = true then
      Except.error "invalid character in host name"
    else
      match unescape mode cs with
      | Except.ok t => Except.ok (c :: t)
      | Except.error e => Except.error e

/-- Go `validEncoded`. -/
def validEncoded (mode : Encoding) (s : List Char) : Bool :=
  s.all (fun c =>
    ['!', '$', '&', '\'', '(', ')', '*', '+', ',', ';', '=', ':', '@', '[', ']', '%'].contains c
      || !shouldEscape c mode)

/-- Go `validOptionalPort`. -/
def validOptionalPort (port : List Char) : Bool :=
  match port with
  | [] => true
  | c :: digits => c == ':' && digits.all isDigit

/-- Go `validUserinfo`. -/
def validUserinfo (s : List Char) : Bool :=
  s.all (fun c => isAlnum c ||
    ['-', '.', '_', ':', '~', '!', '$', '&', '\'', '(', ')', '*', '+', ',', ';', '=', '%',
      '@'].contains c)

/-- Go `stringContainsCTLByte`. -/
def stringContainsCTLByte (s : List Char) : Bool :=
  s.any (fun c => c.toNat < 32 || c.toNat = 127)

/-- Go `strings.Cut` with a separator of one byte: the text before the first separator,
the text after it, and whether the separator was found. -/
def stringsCut (sep : Char) (s : List Char) : List Char × List Char × Bool :=
  match s.span (fun c => c != sep) with
  | (before, []) => (before, [], false)
  | (before, _ :: after) => (before, after, true)

/-- Go `strings.LastIndex` with a separator of one byte; `none` is -1. -/
def lastIndexAux (sep : Char) : List Char → Nat → Option Nat → Option Nat
  | [], _, r => r
  | c :: cs, i, r => lastIndexAux sep cs (i + 1) (if c = sep then some i else r)

/-- Go `strings.Index`; `none` is -1. -/
def stringsIndexAux (sub : List Char) : List Char → Nat → Option Nat
  | [], i => if sub = [] then some i else none
  | c :: cs, i => if sub.isPrefixOf (c :: cs) then some i else stringsIndexAux sub cs (i + 1)

/-- Go `getScheme`: `seen` holds, reversed, the bytes before the current one. -/
def getSchemeAux (rawURL : List Char) : List Char → List Char →
    Except GoError (List Char × List Char)
  | [], _ => Except.ok ([], rawURL)
  | c :: cs, seen =>
    if isAlpha c then getSchemeAux rawURL cs (c :: seen)
    else if isDigit c || c == '+' || c == '-' || c == '.' then
      if seen = [] then Except.ok ([], rawURL) else getSchemeAux rawURL cs (c :: seen)
    else if c = ':' then
      if seen = [] then Except.error "missing protocol scheme"
      else Except.ok (seen.reverse, cs)
    else Except.ok ([], rawURL)

/-- Go `getScheme`. -/
def getScheme (rawURL : List Char) : Except GoError (List Char × List Char) :=
  getSchemeAux rawURL rawURL []

/-- Go `parseHost`, as in the releases of Go before 1.25.2: the text between brackets is
not checked to be an IPv6 address, and the port is what follows the last colon. -/
def parseHost (host : List Char) : Except GoError (List Char) :=
  if host.head? = some '[' then
    match lastIndexAux ']' host 0 none with
    | none => Except.error "missing ']' in host"
    | some i =>
      if !validOptionalPort (host.drop (i + 1)) then Except.error "invalid port after host"
      else
        match stringsIndexAux ['%', '2', '5'] (host.take i) 0 with
        | some zone =>
          match unescape Encoding.encodeHost (host.take zone) with
          | Except.error e => Except.error e
          | Except.ok host1 =>
            match unescape Encoding.encodeZone ((host.take i).drop zone) with
            | Except.error e => Except.error e
            | Except.ok host2 =>
              match unescape Encoding.encodeHost (host.drop i) with
              | Except.error e => Except.error e
              | Except.ok host3 => Except.ok (host1 ++ host2 ++ host3)
        | none => unescape Encoding.encodeHost host
  else
    match lastIndexAux ':' host 0 none with
    | some i =>
      if !validOptionalPort (host.drop i) then Except.error "invalid port after host"
      else unescape Encoding.encodeHost host
    | none => unescape Encoding.encodeHost host

/-- Go `parseAuthority`. -/
def parseAuthority (authority : List Char) : Except GoError (Option Userinfo × List Char) :=
  match lastIndexAux '@' authority 0 none with
  | none =>
    match parseHost authority with
    | Except.error e => Except.error e
    | Except.ok host => Except.ok (none, host)
  | some i =>
    match parseHost (authority.drop (i + 1)) with
    | Except.error e => Except.error e
    | Except.ok host =>
      let userinfo := authority.take i
      if !validUserinfo userinfo then Except.error "net/url: invalid userinfo"
      else if !userinfo.contains ':' then
        match unescape Encoding.encodeUserPassword userinfo with
        | Except.error e => Except.error e
        | Except.ok username => Except.ok (some ⟨String.mk username, none⟩, host)
      else
        match unescape Encoding.encodeUserPassword (stringsCut ':' userinfo).1 with
        | Except.error e => Except.error e
        | Except.ok username =>
          match unescape Encoding.encodeUserPassword (stringsCut ':' userinfo).2.1 with
          | Except.error e => Except.error e
          | Except.ok password =>
            Except.ok (some ⟨String.mk username, some (String.mk password)⟩, host)

/-- Go `(*URL).setPath`. -/
def setPath (u : URL) (p : List Char) : Except GoError URL :=
  match unescape Encoding.encodePath p with
  | Except.error e => Except.error e
  | Except.ok path =>
    Except.ok { u with
      Path := String.mk path
      RawPath := if p = escape Encoding.encodePath path then "" else String.mk p }

/-- Go `(*URL).setFragment`. -/
def setFragment (u : URL) (f : List Char) : Except GoError URL :=
  match unescape Encoding.encodeFragment f with
  | Except.error e => Except.error e
  | Except.ok frag =>
    Except.ok { u with
      Fragment := String.mk frag
      RawFragment := if f = escape Encoding.encodeFragment frag then "" else String.mk f }

/-- Go `parse` with `viaRequest = false`, after the scheme and the query were split off:
the authority and the path. -/
def parseAuthorityAndPath (u : URL) (rest : List Char) : Except GoError URL :=
  if (u.Scheme ≠ "" ∨ ¬ ['/', '/', '/'].isPrefixOf rest = true) ∧
      ['/', '/'].isPrefixOf rest = true then
    match (rest.drop 2).span (fun c => c != '/') with
    | (authority, rest1) =>
      match parseAuthority authority with
      | Except.error e => Except.error e
      | Except.ok (user, host) => setPath { u with User := user, Host := String.mk host } rest1
  else if u.Scheme ≠ "" ∧ ['/'].isPrefixOf rest = true then
    setPath { u with OmitHost := true } rest
  else setPath u rest

/-- Go `parse` with `viaRequest = false`. -/
def parse (rawURL : List Char) : Except GoError URL :=
  if stringContainsCTLByte rawURL then
    Except.error "net/url: invalid control character in URL"
  else if rawURL = ['*'] then Except.ok { Path := "*" }
  else
    match getScheme rawURL with
    | Except.error e => Except.error e
    | Except.ok (scheme, rest0) =>
      let force := rest0.getLast? = some '?' ∧ rest0.count '?' = 1
      let rest := if force then rest0.dropLast else (stringsCut '?' rest0).1
      let u : URL :=
        { Scheme := String.mk (scheme.map Char.toLower)
          ForceQuery := decide force
          RawQuery := if force then "" else String.mk (stringsCut '?' rest0).2.1 }
      if ¬ ['/'].isPrefixOf rest = true then
        if u.Scheme ≠ "" then Except.ok { u with Opaque := String.mk rest }
        else if (stringsCut '/' rest).1.contains ':' then
          Except.error "first path segment in URL cannot contain colon"
        else parseAuthorityAndPath u rest
      else parseAuthorityAndPath u rest

/-- Go `url.Parse`. -/
def urlParse (rawURL : String) : Except GoError URL :=
  match parse (stringsCut '#' rawURL.data).1 with
  | Except.error e => Except.error e
  | Except.ok u =>
    if (stringsCut '#' rawURL.data).2.1 = [] then Except.ok u
    else setFragment u (stringsCut '#' rawURL.data).2.1

/-- Go `(*URL).EscapedPath`. -/
def escapedPath (u : URL) : List Char :=
  if u.RawPath ≠ "" ∧ validEncoded Encoding.encodePath u.RawPath.data = true ∧
      unescape Encoding.encodePath u.RawPath.data = Except.ok u.Path.data then u.RawPath.data
  else if u.Path = "*" then ['*']
  else escape Encoding.encodePath u.Path.data

/-- Go `(*URL).EscapedFragment`. -/
def escapedFragment (u : URL) : List Char :=
  if u.RawFragment ≠ "" ∧ validEncoded Encoding.encodeFragment u.RawFragment.data = true ∧
      unescape Encoding.encodeFragment u.RawFragment.data = Except.ok u.Fragment.data then
    u.RawFragment.data
  else escape Encoding.encodeFragment u.Fragment.data

/-- Go `(*Userinfo).String` on a non-nil receiver. -/
def userinfoString (ui : Userinfo) : List Char :=
  escape Encoding.encodeUserPassword ui.username.data ++
    (match ui.password with
      | some pw => ':' :: escape Encoding.encodeUserPassword pw.data
      | none => [])

/-- Go `(*URL).String`, up to the path: the scheme and the authority. -/
def urlStringHead (u : URL) : List Char :=
  (if u.Scheme ≠ "" then u.Scheme.data ++ [':'] else []) ++
    (if u.Scheme ≠ "" ∨ u.Host ≠ "" ∨ u.User ≠ none then
      if u.OmitHost = true ∧ u.Host = "" ∧ u.User = none then []
      else
        (if u.Host ≠ "" ∨ u.Path ≠ "" ∨ u.User ≠ none then ['/', '/'] else []) ++
          (match u.User with
            | some ui => userinfoString ui ++ ['@']
            | none => []) ++
          (if u.Host ≠ "" then escape Encoding.encodeHost u.Host.data else [])
    else [])

/-- Go `(*URL).String` on a non-nil receiver. -/
def urlString (u : URL) : String :=
  String.mk (
    (if u.Opaque ≠ "" then
      (if u.Scheme ≠ "" then u.Scheme.data ++ [':'] else []) ++ u.Opaque.data
    else
      urlStringHead u ++
        (if escapedPath u ≠ [] ∧ (escapedPath u).head? ≠ some '/' ∧ u.Host ≠ "" then ['/']
          else []) ++
        (if urlStringHead u = [] ∧ (stringsCut '/' (escapedPath u)).1.contains ':' then
          ['.', '/'] else []) ++
        escapedPath u) ++
    (if u.ForceQuery = true ∨ u.RawQuery ≠ "" then '?' :: u.RawQuery.data else []) ++
    (if u.Fragment ≠ "" then '#' :: escapedFragment u else []))

/-! ## Model of the standard library: `bufio.Scanner` -/

/-- The bytes between line feeds: every piece that ends in a line feed, and the piece
after the last line feed when it is not empty. `cur` holds, reversed, the bytes of the
piece under way. -/
def rawLinesAux : List Char → List Char → List (List Char)
  | [], cur => if cur = [] then [] else [cur.reverse]
  | c :: cs, cur =>
    if c = '\n' then cur.reverse :: rawLinesAux cs [] else rawLinesAux cs (c :: cur)

/-- Go `dropCR` of `bufio`. -/
def dropCR (line : List Char) : List Char :=
  if line.getLast? = some '\r' then line.dropLast else line

/-- Go `bufio.MaxScanTokenSize`. -/
def maxScanTokenSize : Nat := 64 * 1024

/-- The tokens of a `bufio.Scanner` with the default split function `ScanLines` and the
default buffer over a reader that delivers `data`: the lines without their line ends, up
to the first line that does not fit into the buffer, where scanning stops. -/
def scanLines (data : String) : List String :=
  ((rawLinesAux data.data []).takeWhile (fun l => l.length < maxScanTokenSize)).map
    (fun l => String.mk (dropCR l))

/-- The lines of a text, without their line ends. -/
def inputLines (data : String) : List String :=
  (rawLinesAux data.data []).map (fun l => String.mk (dropCR l))

/-! ## Export and import of the pool -/

/-- An `io.Writer`: the outcome of the call of `Write` number `i` with the bytes
`data`, the count of bytes written and an error. -/
abbrev Sink := Nat → String → Int × Option GoError

/-- Result of `PrintAll`: the two Go results and the byte slices handed to `Write`. -/
structure PrintResult where
  bytesWritten : Int
  err : Option GoError
  writes : List String
deriving DecidableEq

/-- The `range` loop of `PrintAll`. `proxy.String()` on a nil pointer panics. The
returned error is nil on both `return` statements, as in the source. -/
def printLoop (sink : Sink) : List URLPtr → Nat → Int → List String →
    Except String PrintResult
  | [], _, bytesWritten, writes => Except.ok ⟨bytesWritten, none, writes⟩
  | none :: _, _, _, _ => Except.error "invalid memory address or nil pointer dereference"
  | some proxy :: rest, i, bytesWritten, writes =>
    let data := urlString proxy ++ "\n"
    let r := sink i data
    let bytesWritten1 := wrapInt (bytesWritten + r.1)
    if r.2 ≠ none then Except.ok ⟨bytesWritten1, none, writes ++ [data]⟩
    else printLoop sink rest (i + 1) bytesWritten1 (writes ++ [data])

/-- Go `PrintAll`. -/
def PrintAll (sink : Sink) (m : ProxiesManager) : Except String PrintResult :=
  printLoop sink m.proxies 0 0 []

/-- A sink that accepts every write in full, such as a `bytes.Buffer`. -/
def acceptingSink : Sink := fun _ data => ((data.length : Int), none)

/-- What an accepting sink holds after the writes: their concatenation. -/
def written (writes : List String) : String :=
  writes.foldl (fun acc w => acc ++ w) ""

/-- The part of `http.Request` that matters here: what `http.NewRequest` was given. -/
structure Request where
  method : String
  target : String
deriving DecidableEq

/-- The struct `TargetSite`. -/
structure TargetSite where
  url : String
  request : Option Request
deriving DecidableEq

/-- The behaviour of an `*http.Client` in `LoadFromWeb`: the outcome of `Do` with the
transport the client came with, and the outcomes of `Do` under the transport that
`proxiedRequest` installs. -/
structure HTTPClient where
  direct : Request → DoResult
  proxied : Request → Client

/-- Result of `LoadFromWeb`: the two Go results, the manager afterwards, the requests
handed to `Do` outside `proxiedRequest`, and the events of `proxiedRequest`. -/
structure LoadResult where
  count : Int
  err : Option GoError
  state : ProxiesManager
  requests : List Request
  trace : List Event
deriving DecidableEq

/-- Go `LoadFromWeb`, once the request is at hand. `res.Body` on a nil response
panics. -/
def fetchAndLoad (parse : String → Except GoError URL) (client : HTTPClient)
    (m : ProxiesManager) (request : Request) (useProxies : Bool) : Except String LoadResult :=
  if !useProxies then
    let r := client.direct request
    if r.err ≠ none then Except.ok ⟨0, r.err, m, [request], []⟩
    else
      match r.res with
      | none => Except.error "invalid memory address or nil pointer dereference"
      | some res =>
        Except.ok ⟨(loadFromBuff parse m res.Body).1, none, (loadFromBuff parse m res.Body).2,
          [request], []⟩
  else
    match proxiedRequest (client.proxied request) m with
    | Except.error e => Except.error e
    | Except.ok c =>
      if c.err ≠ none then Except.ok ⟨0, c.err, c.state, [], c.trace⟩
      else
        match c.res with
        | none => Except.error "invalid memory address or nil pointer dereference"
        | some res =>
          Except.ok ⟨(loadFromBuff parse c.state res.Body).1, none,
            (loadFromBuff parse c.state res.Body).2, [], c.trace⟩

/-- Go `LoadFromWeb`. `newRequest` stands for `http.NewRequest` with a nil body, and
`fresh` for the behaviour of a new `&http.Client{}`. -/
def LoadFromWeb (parse : String → Except GoError URL)
    (newRequest : String → String → Except GoError Request) (fresh : HTTPClient)
    (m : ProxiesManager) (ts : TargetSite) (httpClient : Option HTTPClient)
    (useProxies : Bool) : Except String LoadResult :=
  let client := match httpClient with
    | none => fresh
    | some c => c
  match ts.request with
  | some request => fetchAndLoad parse client m request useProxies
  | none =>
    if ts.url = "" then
      Except.ok ⟨0, some "neither url or request was provided", m, [], []⟩
    else
      match newRequest "GET" ts.url with
      | Except.error _ => Except.ok ⟨0, none, m, [], []⟩
      | Except.ok request => fetchAndLoad parse client m request useProxies

/-! ## Vocabulary of the statements -/

/-- The number of calls of `httpClient.Do` recorded in a trace. -/
def doCalls (tr : List Event) : Nat :=
  tr.countP (fun e => match e with
    | Event.doCall _ _ => true
    | Event.nextCall => false)

/-- The number of calls of `Next` recorded in a trace. -/
def nextCalls (tr : List Event) : Nat :=
  tr.countP (fun e => match e with
    | Event.doCall _ _ => false
    | Event.nextCall => true)

/-- What the proxy hook evaluates to in attempt `t` of a request started in state `m`
when the attempts before it failed: `m.Proxy()` after `t` calls of `Next`. -/
def hookAt (m : ProxiesManager) (t : Nat) : Except String URLPtr :=
  (Proxy (Next^[t] m)).1

/-- The outcome of attempt `t` of a request started in state `m` with client `client`,
when the attempts before it failed. -/
def attemptResult (client : Client) (m : ProxiesManager) (t : Nat) : DoResult :=
  client t (hookAt m t)

/-- The events of `n` consecutive failed attempts, the first of which is attempt `i`
made in state `m`. -/
def failBlocks : Nat → Nat → ProxiesManager → List Event
  | 0, _, _ => []
  | n + 1, i, m => Event.doCall i (Proxy m).1 :: Event.nextCall :: failBlocks n (i + 1) (Next m)

/-- The locals `res`, `err` after `n` consecutive failed attempts starting with
attempt `i` in state `m`. -/
def lastResult (client : Client) (i : Nat) (m : ProxiesManager) : Nat → DoResult → DoResult
  | 0, last => last
  | n + 1, _ => client (i + n) (hookAt m n)

/-- The line that `loadFromBuff` hands to `url.Parse`, in the words of the
specification: a line without a scheme separator gets the configured default scheme
in front. -/
def withDefaultScheme (defaultScheme line : String) : String :=
  if stringsContains line "://" = true then line else defaultScheme ++ "://" ++ line

/-- The endpoint of an accepted line, in the words of the specification: the line,
with the default scheme in front when it lacks "://", parses without error to a
non-empty host; an empty scheme of the parsed endpoint is replaced by "http". -/
def acceptedEndpoint (parse : String → Except GoError URL) (defaultScheme line : String) :
    Option URL :=
  match parse (withDefaultScheme defaultScheme line) with
  | Except.error _ => none
  | Except.ok u =>
    if u.Host = "" then none
    else some (if u.Scheme = "" then { u with Scheme := "http" } else u)

/-- The endpoints of the accepted lines, in input order. -/
def acceptedEndpoints (parse : String → Except GoError URL) (defaultScheme : String)
    (lines : List String) : List URL :=
  lines.filterMap (acceptedEndpoint parse defaultScheme)

/-- A string that a scanner reads back as one line: no line feed in it, no carriage
return at its end, and short enough for the buffer. -/
def singleLine (s : String) : Bool :=
  !s.data.contains '\n' && !(s.data.getLast? == some '\r') &&
    decide (s.length < maxScanTokenSize)

/-- The representation invariant of the cursor. -/
def CursorOk (m : ProxiesManager) : Prop :=
  (m.proxies = [] → m.useIndex = 0) ∧
  (m.proxies ≠ [] → 0 ≤ m.useIndex ∧ m.useIndex < Count m)

/-- States reachable from `NewProxiesManager` through the operations of the package.
`SelectRandom` and `CallRequest` contribute a state only where they return, and
`loadFromBuff` may be fed any lines under any behaviour of `url.Parse`. `LoadFromFile`
and `LoadFromWeb` change the manager only through `loadFromBuff` and
`proxiedRequest`. -/
inductive Reachable : ProxiesManager → Prop where
  | init : Reachable NewProxiesManager
  | defaultScheme (m : ProxiesManager) (scheme : String) :
      Reachable m → Reachable (DefaultScheme m scheme).2
  | defaultTryAttempts (m : ProxiesManager) (count : Int) :
      Reachable m → Reachable (DefaultTryAttempts m count).2
  | insertProxies (m : ProxiesManager) (proxies : List URLPtr) :
      Reachable m → Reachable (InsertProxies m proxies)
  | loadFromBuff (parse : String → Except GoError URL) (m : ProxiesManager)
      (lines : List String) : Reachable m → Reachable (loadFromBuff parse m lines).2
  | next (m : ProxiesManager) : Reachable m → Reachable (Next m)
  | nextProxy (m : ProxiesManager) : Reachable m → Reachable (NextProxy m).2
  | selectRandom (m m1 : ProxiesManager) (seed : Nat) :
      Reachable m → SelectRandom m seed = Except.ok m1 → Reachable m1
  | callRequest (fresh : Client) (httpClient : Option Client) (m : ProxiesManager)
      (r : CallResult) :
      Reachable m → CallRequest fresh httpClient m = Except.ok r → Reachable r.state

/-- States reachable from `NewProxiesManager` by calls of `DefaultTryAttempts` only. -/
inductive ReachableByTryAttempts : ProxiesManager → Prop where
  | init : ReachableByTryAttempts NewProxiesManager
  | step (m : ProxiesManager) (count : Int) :
      ReachableByTryAttempts m → ReachableByTryAttempts (DefaultTryAttempts m count).2

/-! ## Concrete inputs -/

/-- A proxy endpoint. -/
def proxyA : URL := { Scheme := "http", Host := "10.0.0.1:8080" }

/-- A second proxy endpoint. -/
def proxyB : URL := { Scheme := "http", Host := "10.0.0.2:3128" }

/-- A third proxy endpoint. -/
def proxyC : URL := { Scheme := "socks5", Host := "10.0.0.3:1080" }

/-- A client whose every attempt ends in a transport error. -/
def alwaysFail : Client := fun _ _ => ⟨none, some "connection refused"⟩

/-- A client whose every attempt returns a response with status 502 and no error. -/
def alwaysRespond : Client := fun _ _ => ⟨some ⟨502, []⟩, none⟩

/-- A client that fails in attempt 0 and responds from attempt 1 on. -/
def failOnce : Client := fun i _ =>
  if i = 0 then ⟨none, some "connection refused"⟩ else ⟨some ⟨200, []⟩, none⟩

/-- A fresh manager with three proxies inserted: pool size 3, multiplier 2. -/
def threeProxies : ProxiesManager :=
  InsertProxies NewProxiesManager [some proxyA, some proxyB, some proxyC]

/-- A fresh manager after `InsertProxies` of one proxy and `DefaultTryAttempts(0)`. -/
def zeroAttempts : ProxiesManager :=
  (DefaultTryAttempts (InsertProxies NewProxiesManager [some proxyA]) 0).2

/-- A fresh manager after `InsertProxies` of a slice holding one nil pointer. -/
def nilProxy : ProxiesManager := InsertProxies NewProxiesManager [none]

/-- A manager whose cursor lies outside its pool of one proxy. -/
def strayCursor : ProxiesManager :=
  { proxies := [some proxyA], useIndex := 1, defaultScheme := "http",
    defaultProxyTryAttempts := 2 }

/-- A text of two lines: a line of 65536 letters, then "1.2.3.4:8080". -/
def longLineInput : String :=
  String.mk (List.replicate 65536 'a' ++ '\n' :: "1.2.3.4:8080\n".data)

/-- The four lines of the ingestion example. -/
def sampleLines : List String :=
  ["1.2.3.4:8080", "http://5.6.7.8:3128", "not a valid proxy ::://", ""]

/-- A sink that rejects every write. -/
def rejectingSink : Sink := fun _ _ => (0, some "write failed")

/-- Four lines for a manager whose default scheme is "socks5": an address without a
scheme, a line that parses to an empty host, a line that parses to a host without a
scheme, and a line that does not parse. -/
def mixedLines : List String := ["10.0.0.9:1080", "http://", "//host/a://b", "a b"]

/-- A fresh manager whose default scheme was set to "socks5". -/
def socksDefault : ProxiesManager := (DefaultScheme NewProxiesManager "socks5").2

/-- An `http.NewRequest` that rejects every URL. -/
def rejectAll : String → String → Except GoError Request :=
  fun _ _ => Except.error "invalid URL"

/-- A client that answers every request with one line of text. -/
def oneLineClient : HTTPClient :=
  { direct := fun _ => ⟨some ⟨200, ["1.2.3.4:8080"]⟩, none⟩
    proxied := fun _ => alwaysRespond }

/-- The contract of `http.Client.Do`: a nil error comes with a non-nil response. -/
def ObeysDoContract (client : Client) : Prop :=
  ∀ i h, (client i h).err = none → (client i h).res ≠ none

/-! ## Lemmas on the cursor and the retry loop -/

theorem Next_proxies (m : ProxiesManager) : (Next m).proxies = m.proxies := by
  unfold Next
  dsimp only
  split <;> rfl

theorem Next_defaultScheme (m : ProxiesManager) : (Next m).defaultScheme = m.defaultScheme := by
  unfold Next
  dsimp only
  split <;> rfl

theorem Next_tryAttempts (m : ProxiesManager) :
    (Next m).defaultProxyTryAttempts = m.defaultProxyTryAttempts := by
  unfold Next
  dsimp only
  split <;> rfl

theorem iterate_Next_proxies (n : Nat) (m : ProxiesManager) :
    (Next^[n] m).proxies = m.proxies := by
  induction n generalizing m with
  | zero => rfl
  | succ n ih => rw [Function.iterate_succ_apply, ih, Next_proxies]

theorem iterate_Next_defaultScheme (n : Nat) (m : ProxiesManager) :
    (Next^[n] m).defaultScheme = m.defaultScheme := by
  induction n generalizing m with
  | zero => rfl
  | succ n ih => rw [Function.iterate_succ_apply, ih, Next_defaultScheme]

theorem iterate_Next_tryAttempts (n : Nat) (m : ProxiesManager) :
    (Next^[n] m).defaultProxyTryAttempts = m.defaultProxyTryAttempts := by
  induction n generalizing m with
  | zero => rfl
  | succ n ih => rw [Function.iterate_succ_apply, ih, Next_tryAttempts]

theorem hookAt_zero (m : ProxiesManager) : hookAt m 0 = (Proxy m).1 := rfl

theorem hookAt_Next (m : ProxiesManager) (t : Nat) : hookAt (Next m) t = hookAt m (t + 1) := by
  unfold hookAt
  rw [Function.iterate_succ_apply]

theorem lastResult_Next (client : Client) (i : Nat) (m : ProxiesManager) (n : Nat)
    (last : DoResult) :
    lastResult client (i + 1) (Next m) n (client i (Proxy m).1)
      = lastResult client i m (n + 1) last := by
  cases n with
  | zero => simp [lastResult, hookAt_zero]
  | succ k =>
    simp only [lastResult, hookAt_Next]
    congr 1
    omega

/-- One iteration of the loop when the hook returns. -/
theorem retryLoop_step (client : Client) (n i : Nat) (m : ProxiesManager) (last : DoResult)
    (tr : List Event) (p : URLPtr) (hp : (Proxy m).1 = Except.ok p) :
    retryLoop client (n + 1) i m last tr =
      if (client i (Proxy m).1).err = none then
        Except.ok ⟨(client i (Proxy m).1).res, (client i (Proxy m).1).err, m,
          tr ++ [Event.doCall i (Proxy m).1]⟩
      else retryLoop client n (i + 1) (Next m) (client i (Proxy m).1)
        (tr ++ [Event.doCall i (Proxy m).1] ++ [Event.nextCall]) := by
  simp only [retryLoop]
  rw [hp]

/-- One iteration of the loop when the hook panics. -/
theorem retryLoop_hook_panic (client : Client) (n i : Nat) (m : ProxiesManager)
    (last : DoResult) (tr : List Event) (e : String) (hp : (Proxy m).1 = Except.error e) :
    retryLoop client (n + 1) i m last tr = Except.error e := by
  simp only [retryLoop]
  rw [hp]

/-- After `n` failed attempts, in each of which the hook returned, the loop stands
where a loop with `n` fewer iterations starts, `n` calls of `Next` later. -/
theorem retryLoop_failed (client : Client) (rest : Nat) :
    ∀ (n i : Nat) (m : ProxiesManager) (last : DoResult) (tr : List Event),
      (∀ t, t < n → ∃ p, hookAt m t = Except.ok p) →
      (∀ t, t < n → (client (i + t) (hookAt m t)).err ≠ none) →
      retryLoop client (n + rest) i m last tr =
        retryLoop client rest (i + n) (Next^[n] m) (lastResult client i m n last)
          (tr ++ failBlocks n i m) := by
  intro n
  induction n with
  | zero =>
    intro i m last tr _ _
    simp [failBlocks, lastResult]
  | succ n ih =>
    intro i m last tr hhook h
    obtain ⟨p, hp⟩ := hhook 0 (Nat.succ_pos n)
    rw [hookAt_zero] at hp
    have h0 : (client i (Proxy m).1).err ≠ none := by
      have := h 0 (Nat.succ_pos n)
      simpa [hookAt_zero] using this
    have hhook1 : ∀ t, t < n → ∃ q, hookAt (Next m) t = Except.ok q := by
      intro t ht
      rw [hookAt_Next]
      exact hhook (t + 1) (Nat.succ_lt_succ ht)
    have hstep : ∀ t, t < n → (client (i + 1 + t) (hookAt (Next m) t)).err ≠ none := by
      intro t ht
      have := h (t + 1) (Nat.succ_lt_succ ht)
      rw [hookAt_Next]
      have e : i + 1 + t = i + (t + 1) := by omega
      rw [e]
      exact this
    have e1 : n + 1 + rest = (n + rest) + 1 := by omega
    rw [e1, retryLoop_step client (n + rest) i m last tr p hp, if_neg h0,
      ih (i + 1) (Next m) _ _ hhook1 hstep, lastResult_Next client i m n last,
      Function.iterate_succ_apply]
    have e2 : i + 1 + n = i + (n + 1) := by omega
    rw [e2]
    simp [failBlocks]

theorem retryLoop_zero (client : Client) (i : Nat) (m : ProxiesManager) (last : DoResult)
    (tr : List Event) :
    retryLoop client 0 i m last tr = Except.ok ⟨last.res, last.err, m, tr⟩ := rfl

theorem retryLoop_success (client : Client) (rest i : Nat) (m : ProxiesManager)
    (last : DoResult) (tr : List Event) (p : URLPtr) (hp : (Proxy m).1 = Except.ok p)
    (h : (client i (Proxy m).1).err = none) :
    retryLoop client (rest + 1) i m last tr =
      Except.ok ⟨(client i (Proxy m).1).res, (client i (Proxy m).1).err, m,
        tr ++ [Event.doCall i (Proxy m).1]⟩ := by
  rw [retryLoop_step client rest i m last tr p hp, if_pos h]

theorem doCalls_append (a b : List Event) : doCalls (a ++ b) = doCalls a + doCalls b := by
  simp [doCalls, List.countP_append]

theorem nextCalls_append (a b : List Event) : nextCalls (a ++ b) = nextCalls a + nextCalls b := by
  simp [nextCalls, List.countP_append]

theorem failBlocks_length (n i : Nat) (m : ProxiesManager) :
    (failBlocks n i m).length = 2 * n := by
  induction n generalizing i m with
  | zero => rfl
  | succ n ih =>
    simp only [failBlocks, List.length_cons, ih]
    omega

theorem failBlocks_doCalls (n i : Nat) (m : ProxiesManager) : doCalls (failBlocks n i m) = n := by
  induction n generalizing i m with
  | zero => rfl
  | succ n ih =>
    have := ih (i + 1) (Next m)
    simp only [doCalls] at this ⊢
    simp [failBlocks, List.countP_cons, this]

theorem failBlocks_nextCalls (n i : Nat) (m : ProxiesManager) :
    nextCalls (failBlocks n i m) = n := by
  induction n generalizing i m with
  | zero => rfl
  | succ n ih =>
    have := ih (i + 1) (Next m)
    simp only [nextCalls] at this ⊢
    simp [failBlocks, List.countP_cons, this]

theorem failBlocks_getElem (n i : Nat) (m : ProxiesManager) (t : Nat) (ht : t < n) :
    (failBlocks n i m)[2 * t]? = some (Event.doCall (i + t) (hookAt m t)) ∧
    (failBlocks n i m)[2 * t + 1]? = some Event.nextCall := by
  induction n generalizing i m t with
  | zero => omega
  | succ n ih =>
    cases t with
    | zero => simp [failBlocks, hookAt_zero]
    | succ t =>
      have h := ih (i + 1) (Next m) t (by omega)
      have e1 : 2 * (t + 1) = (2 * t) + 1 + 1 := by omega
      have e2 : 2 * (t + 1) + 1 = (2 * t + 1) + 1 + 1 := by omega
      have e3 : i + 1 + t = i + (t + 1) := by omega
      rw [e2, e1]
      simp only [failBlocks, List.getElem?_cons_succ]
      rw [h.1, h.2, hookAt_Next, e3]
      exact ⟨rfl, rfl⟩

theorem wrapInt_of_range (x : Int) (h0 : intMin ≤ x) (h1 : x ≤ intMax) : wrapInt x = x := by
  unfold wrapInt
  unfold intMin at h0
  unfold intMax at h1
  omega

theorem Count_pos_of_ne_nil (m : ProxiesManager) (h : m.proxies ≠ []) : 1 ≤ Count m := by
  unfold Count
  have := List.length_pos.mpr h
  omega

theorem Count_eq_zero_of_nil (m : ProxiesManager) (h : m.proxies = []) : Count m = 0 := by
  unfold Count
  rw [h]
  rfl

theorem sliceIndex_ofNat {α : Type} (s : List α) (k : Nat) (h : k < s.length) :
    sliceIndex s (k : Int) = Except.ok (s.get ⟨k, h⟩) := by
  unfold sliceIndex
  have hneg : ¬ ((k : Int) < 0) := by omega
  rw [if_neg hneg, Int.toNat_ofNat, List.getElem?_eq_getElem h]
  rfl

theorem manager_with_useIndex_self (m : ProxiesManager) (c : Int) (h : c = m.useIndex) :
    { m with useIndex := c } = m := by
  subst h
  rfl

/-- With the cursor inside a non-empty pool, `i` calls of `Next` move it to
`(useIndex + i) mod len` and change nothing else. -/
theorem iterate_Next_eq (m : ProxiesManager) (hpool : m.proxies ≠ [])
    (h0 : 0 ≤ m.useIndex) (h1 : m.useIndex < Count m) (i : Nat) :
    Next^[i] m =
      { m with useIndex := (((m.useIndex.toNat + i) % m.proxies.length : Nat) : Int) } := by
  have hN : 0 < m.proxies.length := List.length_pos.mpr hpool
  unfold Count at h1
  induction i with
  | zero =>
    have hc : m.useIndex.toNat < m.proxies.length := by omega
    rw [Function.iterate_zero_apply, Nat.add_zero, Nat.mod_eq_of_lt hc]
    exact (manager_with_useIndex_self m _ (Int.toNat_of_nonneg h0)).symm
  | succ i ih =>
    rw [Function.iterate_succ_apply', ih]
    have hr : (m.useIndex.toNat + i) % m.proxies.length < m.proxies.length :=
      Nat.mod_lt _ hN
    have hs : (m.useIndex.toNat + (i + 1)) % m.proxies.length
        = ((m.useIndex.toNat + i) % m.proxies.length + 1) % m.proxies.length := by
      rw [Nat.mod_add_mod]
      rfl
    rw [hs]
    generalize (m.useIndex.toNat + i) % m.proxies.length = r at hr
    unfold Next
    dsimp only
    by_cases hwrap : r + 1 = m.proxies.length
    · have hge : ((r : Int) + 1 ≥ (m.proxies.length : Int)) := by omega
      rw [if_pos hge, hwrap, Nat.mod_self]
      rfl
    · have hlt : ¬ ((r : Int) + 1 ≥ (m.proxies.length : Int)) := by omega
      rw [if_neg hlt, Nat.mod_eq_of_lt (by omega)]
      rfl

/-- With the cursor inside a non-empty pool, the proxy hook of attempt `i` reads the
pool element at index `(useIndex + i) mod len`. -/
theorem hookAt_eq (m : ProxiesManager) (hpool : m.proxies ≠ [])
    (h0 : 0 ≤ m.useIndex) (h1 : m.useIndex < Count m) (i : Nat) :
    hookAt m i = Except.ok (m.proxies.get
      ⟨(m.useIndex.toNat + i) % m.proxies.length, Nat.mod_lt _ (List.length_pos.mpr hpool)⟩) := by
  have hN : 0 < m.proxies.length := List.length_pos.mpr hpool
  unfold hookAt
  rw [iterate_Next_eq m hpool h0 h1 i]
  unfold Proxy
  have hc : ¬ (Count { m with useIndex :=
      (((m.useIndex.toNat + i) % m.proxies.length : Nat) : Int) } < 1) := by
    unfold Count
    dsimp only
    omega
  rw [if_neg hc]
  exact sliceIndex_ofNat m.proxies _ (Nat.mod_lt _ hN)

/-- With the cursor inside a non-empty pool the proxy hook returns in every attempt. -/
theorem hookAt_ok (m : ProxiesManager) (hpool : m.proxies ≠ [])
    (h0 : 0 ≤ m.useIndex) (h1 : m.useIndex < Count m) (t : Nat) :
    ∃ p, hookAt m t = Except.ok p :=
  ⟨_, hookAt_eq m hpool h0 h1 t⟩

/-- Closed form of `proxiedRequest` when the cursor is inside the pool, the loop bound is
`n > 0` and the `n` attempts all fail. -/
theorem proxiedRequest_failed_eq (client : Client) (m : ProxiesManager) (n : Nat)
    (hpool : m.proxies ≠ []) (h0 : 0 ≤ m.useIndex) (h1 : m.useIndex < Count m)
    (hn : attemptBound m = (n : Int)) (hpos : 0 < n)
    (hfail : ∀ t, t < n → (attemptResult client m t).err ≠ none) :
    proxiedRequest client m =
      Except.ok ⟨(attemptResult client m (n - 1)).res, (attemptResult client m (n - 1)).err,
        Next^[n] m, failBlocks n 0 m⟩ := by
  have hc : ¬ Count m < 1 := by
    have := Count_pos_of_ne_nil m hpool
    omega
  have hf : ∀ t, t < n → (client (0 + t) (hookAt m t)).err ≠ none := by
    intro t ht
    have := hfail t ht
    simpa [attemptResult] using this
  unfold proxiedRequest
  rw [if_neg hc, hn, Int.toNat_ofNat]
  have h := retryLoop_failed client 0 n 0 m ⟨none, none⟩ []
    (fun t _ => hookAt_ok m hpool h0 h1 t) hf
  rw [Nat.add_zero] at h
  rw [h, retryLoop_zero]
  obtain ⟨k, rfl⟩ : ∃ k, n = k + 1 := ⟨n - 1, by omega⟩
  simp [lastResult, attemptResult]

/-- Closed form of `proxiedRequest` when the cursor is inside the pool and attempt `j`,
below the loop bound, is the first one without a transport error. -/
theorem proxiedRequest_success_eq (client : Client) (m : ProxiesManager) (j : Nat)
    (hpool : m.proxies ≠ []) (h0 : 0 ≤ m.useIndex) (h1 : m.useIndex < Count m)
    (hj : (j : Int) < attemptBound m)
    (hfail : ∀ t, t < j → (attemptResult client m t).err ≠ none)
    (hok : (attemptResult client m j).err = none) :
    proxiedRequest client m =
      Except.ok ⟨(attemptResult client m j).res, none, Next^[j] m,
        failBlocks j 0 m ++ [Event.doCall j (hookAt m j)]⟩ := by
  have hc : ¬ Count m < 1 := by
    have := Count_pos_of_ne_nil m hpool
    omega
  have hf : ∀ t, t < j → (client (0 + t) (hookAt m t)).err ≠ none := by
    intro t ht
    have := hfail t ht
    simpa [attemptResult] using this
  obtain ⟨rest, hrest⟩ : ∃ rest, (attemptBound m).toNat = j + (rest + 1) :=
    ⟨(attemptBound m).toNat - j - 1, by omega⟩
  have hok1 : (client (0 + j) (Proxy (Next^[j] m)).1).err = none := by
    simpa [attemptResult, hookAt] using hok
  obtain ⟨p, hp⟩ := hookAt_ok m hpool h0 h1 j
  unfold hookAt at hp
  unfold proxiedRequest
  rw [if_neg hc, hrest, retryLoop_failed client (rest + 1) j 0 m ⟨none, none⟩ []
      (fun t _ => hookAt_ok m hpool h0 h1 t) hf,
    retryLoop_success client rest (0 + j) (Next^[j] m) _ _ p hp hok1, hok1]
  simp [attemptResult, hookAt]

/-- With the cursor inside a non-empty pool, a multiple of `len` calls of `Next` lead
back to the same manager. -/
theorem iterate_Next_period (m : ProxiesManager) (hpool : m.proxies ≠ [])
    (h0 : 0 ≤ m.useIndex) (h1 : m.useIndex < Count m) (k : Nat) :
    Next^[k * m.proxies.length] m = m := by
  have hc : m.useIndex.toNat < m.proxies.length := by
    unfold Count at h1
    omega
  rw [iterate_Next_eq m hpool h0 h1, Nat.add_mul_mod_self_right, Nat.mod_eq_of_lt hc]
  exact manager_with_useIndex_self m _ (Int.toNat_of_nonneg h0)

theorem hookAt_period (m : ProxiesManager) (hpool : m.proxies ≠ [])
    (h0 : 0 ≤ m.useIndex) (h1 : m.useIndex < Count m) (k i : Nat) :
    hookAt m (k * m.proxies.length + i) = hookAt m i := by
  unfold hookAt
  rw [Nat.add_comm, Function.iterate_add_apply, iterate_Next_period m hpool h0 h1 k]

/-- The hooks of one sweep over the pool are the pool rotated by the cursor. -/
theorem hooks_one_sweep (m : ProxiesManager) (hpool : m.proxies ≠ [])
    (h0 : 0 ≤ m.useIndex) (h1 : m.useIndex < Count m) :
    (List.range m.proxies.length).map (hookAt m)
      = (m.proxies.rotate m.useIndex.toNat).map Except.ok := by
  apply List.ext_getElem
  · simp
  · intro i hi1 hi2
    rw [List.getElem_map, List.getElem_map, List.getElem_range, hookAt_eq m hpool h0 h1 i,
      List.getElem_rotate]
    simp only [List.get_eq_getElem, Nat.add_comm]

/-- The hooks of `k` sweeps are `k` copies of the rotated pool. -/
theorem hooks_sweeps (m : ProxiesManager) (hpool : m.proxies ≠ [])
    (h0 : 0 ≤ m.useIndex) (h1 : m.useIndex < Count m) (k : Nat) :
    (List.range (k * m.proxies.length)).map (hookAt m)
      = ((List.replicate k (m.proxies.rotate m.useIndex.toNat)).flatten).map Except.ok := by
  induction k with
  | zero => simp
  | succ k ih =>
    rw [Nat.succ_mul, List.range_add, List.map_append, ih, List.map_map,
      List.replicate_succ', List.flatten_append, List.map_append]
    congr 1
    have hfun : (hookAt m ∘ fun x => k * m.proxies.length + x) = hookAt m := by
      funext i
      exact hookAt_period m hpool h0 h1 k i
    rw [hfun, hooks_one_sweep m hpool h0 h1]
    simp

/-! ## Claims -/

/-- C1. For every manager with a non-empty pool of size `N` and a retry multiplier
`k ≥ 1`, and every client that fails in every attempt, `proxiedRequest` (and so
`CallRequest` with that client) returns after exactly `k * N` calls of
`httpClient.Do`, with exactly one call of `Next` after each of these attempts, and
returns the response and the (non-nil) error of the last attempt, attempt `k * N - 1`.
The cursor is taken inside the pool and the product `k * N` within the range of `int`,
as in every state that the exported operations produce from a pool that fits into
memory (`CursorOk_of_Reachable`, `Reachable_bound_in_range`). -/
theorem proxiedRequest_all_attempts_fail (fresh client : Client) (m : ProxiesManager)
    (hpool : m.proxies ≠ []) (h0 : 0 ≤ m.useIndex) (h1 : m.useIndex < Count m)
    (hk : 1 ≤ m.defaultProxyTryAttempts)
    (hrange : m.defaultProxyTryAttempts * Count m ≤ intMax)
    (hfail : ∀ i h, (client i h).err ≠ none) :
    ∃ r, proxiedRequest client m = Except.ok r ∧
      CallRequest fresh (some client) m = Except.ok r ∧
      ((doCalls r.trace : Nat) : Int) = m.defaultProxyTryAttempts * Count m ∧
      0 < doCalls r.trace ∧
      nextCalls r.trace = doCalls r.trace ∧
      r.trace.length = 2 * doCalls r.trace ∧
      (∀ t, t < doCalls r.trace →
        r.trace[2 * t]? = some (Event.doCall t (hookAt m t)) ∧
        r.trace[2 * t + 1]? = some Event.nextCall) ∧
      r.res = (attemptResult client m (doCalls r.trace - 1)).res ∧
      r.err = (attemptResult client m (doCalls r.trace - 1)).err ∧
      r.err ≠ none := by
  have hN := Count_pos_of_ne_nil m hpool
  have hprod : 1 ≤ m.defaultProxyTryAttempts * Count m := by nlinarith
  have hmin : intMin ≤ m.defaultProxyTryAttempts * Count m := by
    unfold intMin
    omega
  obtain ⟨n, hn⟩ : ∃ n : Nat, m.defaultProxyTryAttempts * Count m = (n : Int) :=
    ⟨(m.defaultProxyTryAttempts * Count m).toNat, by omega⟩
  have hb : attemptBound m = (n : Int) := by
    unfold attemptBound
    rw [wrapInt_of_range _ hmin hrange, hn]
  have hpos : 0 < n := by omega
  have hf : ∀ t, t < n → (attemptResult client m t).err ≠ none := fun t _ => hfail _ _
  have hr := proxiedRequest_failed_eq client m n hpool h0 h1 hb hpos hf
  refine ⟨_, hr, hr, ?_⟩
  simp only [failBlocks_doCalls, failBlocks_nextCalls, failBlocks_length]
  refine ⟨hn.symm, hpos, trivial, trivial, ?_, trivial, trivial, hfail _ _⟩
  intro t ht
  have := failBlocks_getElem n 0 m t ht
  simpa using this

/-- C1, at pool size 3 and multiplier 2: six attempts. -/
theorem proxiedRequest_all_attempts_fail_witness :
    threeProxies.proxies.length = 3 ∧ threeProxies.defaultProxyTryAttempts = 2 ∧
      ∃ r, proxiedRequest alwaysFail threeProxies = Except.ok r ∧
        doCalls r.trace = 6 ∧ nextCalls r.trace = 6 ∧
        r.err = some "connection refused" := by
  obtain ⟨r, hr, _, hcount, _, hnext, _, _, _, herr, _⟩ :=
    proxiedRequest_all_attempts_fail alwaysFail alwaysFail threeProxies (by decide)
      (by decide) (by decide) (by decide) (by decide) (by intro i h; simp [alwaysFail])
  have h6 : doCalls r.trace = 6 := by
    have e : threeProxies.defaultProxyTryAttempts * Count threeProxies = 6 := by decide
    rw [e] at hcount
    exact_mod_cast hcount
  refine ⟨by decide, by decide, r, hr, h6, ?_, ?_⟩
  · rw [hnext, h6]
  · rw [herr]
    rfl

/-- C2. For every manager with a non-empty pool of size `N` and a retry multiplier `k`:
if attempt `j` (0-based, `j < k * N`, hence `k ≥ 1`) is the first without a transport
error, then `proxiedRequest` returns after exactly `j + 1` attempts and exactly `j`
calls of `Next`, one after each failed attempt, with the response of attempt `j` and a
nil error, whatever that response is. For `j = 0` one attempt is made and the manager
is unchanged. The cursor is taken inside the pool and the product `k * N` within the
range of `int`, as in every state that the exported operations produce from a pool
that fits into memory. -/
theorem proxiedRequest_first_success (client : Client) (m : ProxiesManager) (j : Nat)
    (hpool : m.proxies ≠ []) (h0 : 0 ≤ m.useIndex) (h1 : m.useIndex < Count m)
    (hrange : m.defaultProxyTryAttempts * Count m ≤ intMax)
    (hj : (j : Int) < m.defaultProxyTryAttempts * Count m)
    (hfail : ∀ t, t < j → (attemptResult client m t).err ≠ none)
    (hok : (attemptResult client m j).err = none) :
    ∃ r, proxiedRequest client m = Except.ok r ∧
      doCalls r.trace = j + 1 ∧
      nextCalls r.trace = j ∧
      r.res = (attemptResult client m j).res ∧
      r.err = none ∧
      r.state = Next^[j] m ∧
      (j = 0 → r.state = m) ∧
      r.trace.length = 2 * j + 1 ∧
      r.trace[2 * j]? = some (Event.doCall j (hookAt m j)) ∧
      (∀ t, t < j →
        r.trace[2 * t]? = some (Event.doCall t (hookAt m t)) ∧
        r.trace[2 * t + 1]? = some Event.nextCall) := by
  have hmin : intMin ≤ m.defaultProxyTryAttempts * Count m := by
    unfold intMin
    omega
  have hb : (j : Int) < attemptBound m := by
    unfold attemptBound
    rw [wrapInt_of_range _ hmin hrange]
    exact hj
  refine ⟨_, proxiedRequest_success_eq client m j hpool h0 h1 hb hfail hok, ?_⟩
  have hlen := failBlocks_length j 0 m
  refine ⟨?_, ?_, rfl, rfl, rfl, ?_, ?_, ?_, ?_⟩
  · rw [doCalls_append, failBlocks_doCalls]
    rfl
  · rw [nextCalls_append, failBlocks_nextCalls]
    rfl
  · intro hz
    subst hz
    rfl
  · simp [hlen]
  · show (failBlocks j 0 m ++ [Event.doCall j (hookAt m j)])[2 * j]? = _
    rw [List.getElem?_append_right (by omega)]
    simp [hlen]
  · intro t ht
    show (failBlocks j 0 m ++ [Event.doCall j (hookAt m j)])[2 * t]? = _ ∧
      (failBlocks j 0 m ++ [Event.doCall j (hookAt m j)])[2 * t + 1]? = _
    have h := failBlocks_getElem j 0 m t ht
    rw [List.getElem?_append_left (by omega), List.getElem?_append_left (by omega)]
    simpa using h

/-- C2, at pool size 3 and multiplier 2: a first attempt that returns status 502
without a transport error ends the request after one attempt with the manager as it
was, and a first success in attempt 1 ends it after two attempts and one `Next`. -/
theorem proxiedRequest_first_success_witness :
    (∃ r, proxiedRequest alwaysRespond threeProxies = Except.ok r ∧
      doCalls r.trace = 1 ∧ r.res = some ⟨502, []⟩ ∧ r.err = none ∧
      r.state = threeProxies) ∧
    (∃ r, proxiedRequest failOnce threeProxies = Except.ok r ∧
      doCalls r.trace = 2 ∧ nextCalls r.trace = 1 ∧ r.res = some ⟨200, []⟩ ∧
      r.err = none) := by
  obtain ⟨r0, hr0, hd0, _, hres0, herr0, _, hst0, _⟩ :=
    proxiedRequest_first_success alwaysRespond threeProxies 0 (by decide) (by decide)
      (by decide) (by decide) (by decide) (by intro t ht; omega) (by decide)
  obtain ⟨r1, hr1, hd1, hn1, hres1, herr1, _⟩ :=
    proxiedRequest_first_success failOnce threeProxies 1 (by decide) (by decide)
      (by decide) (by decide) (by decide) (by intro t ht; interval_cases t; decide)
      (by decide)
  exact ⟨⟨r0, hr0, hd0, hres0, herr0, hst0 rfl⟩, ⟨r1, hr1, hd1, hn1, hres1, herr1⟩⟩

/-- C3. For every manager whose pool is empty and every client (also the nil client
of `CallRequest`), `proxiedRequest` and `CallRequest` return a nil response and the
non-nil error "no proxies loaded", make no call of `httpClient.Do` or `Next`, and
leave the manager (pool, cursor, default scheme, multiplier) unchanged. -/
theorem proxiedRequest_empty_pool (fresh client : Client) (httpClient : Option Client)
    (m : ProxiesManager) (hpool : m.proxies = []) :
    proxiedRequest client m = Except.ok ⟨none, some "no proxies loaded", m, []⟩ ∧
      CallRequest fresh httpClient m = Except.ok ⟨none, some "no proxies loaded", m, []⟩ ∧
      (∀ r, CallRequest fresh httpClient m = Except.ok r →
        r.res = none ∧ r.err = some "no proxies loaded" ∧ r.err ≠ none ∧ r.trace = [] ∧
          doCalls r.trace = 0 ∧ r.state = m) := by
  have hc : Count m < 1 := by
    rw [Count_eq_zero_of_nil m hpool]
    decide
  have hp : ∀ c : Client,
      proxiedRequest c m = Except.ok ⟨none, some "no proxies loaded", m, []⟩ := by
    intro c
    unfold proxiedRequest
    rw [if_pos hc]
  have hcall : CallRequest fresh httpClient m
      = Except.ok ⟨none, some "no proxies loaded", m, []⟩ := by
    cases httpClient with
    | none => exact hp fresh
    | some c => exact hp c
  refine ⟨hp client, hcall, ?_⟩
  intro r hr
  rw [hcall] at hr
  cases hr
  exact ⟨rfl, rfl, by simp, rfl, rfl, rfl⟩

/-- C3, on a fresh manager with a client that would respond. -/
theorem proxiedRequest_empty_pool_witness :
    NewProxiesManager.proxies = [] ∧
      CallRequest alwaysFail (some alwaysRespond) NewProxiesManager
        = Except.ok ⟨none, some "no proxies loaded", NewProxiesManager, []⟩ :=
  ⟨rfl, (proxiedRequest_empty_pool alwaysFail alwaysFail (some alwaysRespond)
    NewProxiesManager rfl).2.1⟩

/-- A loop that runs at least once and returns, returns what some call of
`httpClient.Do` returned. -/
theorem retryLoop_returns_attempt (client : Client) :
    ∀ (n i : Nat) (m : ProxiesManager) (last : DoResult) (tr : List Event) (r : CallResult),
      retryLoop client (n + 1) i m last tr = Except.ok r →
      ∃ t h, r.res = (client t h).res ∧ r.err = (client t h).err := by
  intro n
  induction n with
  | zero =>
    intro i m last tr r hr
    cases hp : (Proxy m).1 with
    | error e =>
      rw [retryLoop_hook_panic client 0 i m last tr e hp] at hr
      cases hr
    | ok p =>
      rw [retryLoop_step client 0 i m last tr p hp] at hr
      refine ⟨i, (Proxy m).1, ?_⟩
      split at hr
      · cases hr
        exact ⟨rfl, rfl⟩
      · rw [retryLoop_zero] at hr
        cases hr
        exact ⟨rfl, rfl⟩
  | succ n ih =>
    intro i m last tr r hr
    cases hp : (Proxy m).1 with
    | error e =>
      rw [retryLoop_hook_panic client (n + 1) i m last tr e hp] at hr
      cases hr
    | ok p =>
      rw [retryLoop_step client (n + 1) i m last tr p hp] at hr
      split at hr
      · cases hr
        exact ⟨i, (Proxy m).1, rfl, rfl⟩
      · exact ih _ _ _ _ r hr

/-- With a client that obeys the contract of `Do`, `proxiedRequest` returns a nil
response together with a nil error only on a non-empty pool whose loop bound is not
positive. -/
theorem proxiedRequest_nil_nil_only_without_attempt (client : Client) (m : ProxiesManager)
    (r : CallResult) (hc : ObeysDoContract client)
    (hr : proxiedRequest client m = Except.ok r) (hres : r.res = none)
    (herr : r.err = none) :
    m.proxies ≠ [] ∧ attemptBound m ≤ 0 := by
  by_cases hcount : Count m < 1
  · unfold proxiedRequest at hr
    rw [if_pos hcount] at hr
    cases hr
    cases herr
  · have hne : m.proxies ≠ [] := by
      intro h
      rw [Count_eq_zero_of_nil m h] at hcount
      exact hcount (by decide)
    refine ⟨hne, ?_⟩
    by_contra hb
    obtain ⟨n, hn⟩ : ∃ n, (attemptBound m).toNat = n + 1 :=
      ⟨(attemptBound m).toNat - 1, by omega⟩
    unfold proxiedRequest at hr
    rw [if_neg hcount, hn] at hr
    obtain ⟨t, h, h1, h2⟩ := retryLoop_returns_attempt client n 0 m ⟨none, none⟩ [] r hr
    rw [h1] at hres
    rw [h2] at herr
    exact hc t h herr hres

/-- C4 fails on the code: after `InsertProxies` of one proxy and `DefaultTryAttempts(0)`,
a state reachable through the public operations, the stored multiplier is 0, the loop
of `proxiedRequest` does not run, and `CallRequest` returns a nil response together
with a nil error, without a call of the client, for every client and also for the nil
client. -/
theorem CallRequest_nil_response_nil_error :
    Reachable zeroAttempts ∧ zeroAttempts.proxies ≠ [] ∧
      zeroAttempts.defaultProxyTryAttempts = 0 ∧
      ∀ (fresh : Client) (httpClient : Option Client),
        CallRequest fresh httpClient zeroAttempts
          = Except.ok ⟨none, none, zeroAttempts, []⟩ := by
  refine ⟨?_, by decide, by decide, ?_⟩
  · exact Reachable.defaultTryAttempts _ 0 (Reachable.insertProxies _ _ Reachable.init)
  · intro fresh httpClient
    cases httpClient <;> rfl

/-- The guard of `DefaultTryAttempts`: a count of at least 1 is not stored. -/
theorem DefaultTryAttempts_ge_one (m : ProxiesManager) (count : Int) (h : 1 ≤ count) :
    DefaultTryAttempts m count = (m.defaultProxyTryAttempts, m) := by
  unfold DefaultTryAttempts
  have : ¬ count < 1 := by omega
  simp only [if_neg this]

/-- The guard of `DefaultTryAttempts`: a count below 1 is stored and returned. -/
theorem DefaultTryAttempts_lt_one (m : ProxiesManager) (count : Int) (h : count < 1) :
    DefaultTryAttempts m count = (count, { m with defaultProxyTryAttempts := count }) := by
  unfold DefaultTryAttempts
  simp only [if_pos h]

/-- C5 fails on the code: on a fresh manager `DefaultTryAttempts(5)` stores nothing and
returns the old multiplier 2, not 5. -/
theorem DefaultTryAttempts_five_not_stored :
    DefaultTryAttempts NewProxiesManager 5 = (2, NewProxiesManager) ∧
      (DefaultTryAttempts NewProxiesManager 5).1 ≠ 5 ∧
      (DefaultTryAttempts NewProxiesManager 5).2.defaultProxyTryAttempts ≠ 5 := by
  decide

/-- C6 fails on the code: on a fresh manager `DefaultTryAttempts(0)` stores 0 and returns
0, not the prior value 2, so a state with a multiplier below 1 is reachable by one call
of `DefaultTryAttempts`. -/
theorem DefaultTryAttempts_zero_stored :
    DefaultTryAttempts NewProxiesManager 0
        = (0, { NewProxiesManager with defaultProxyTryAttempts := 0 }) ∧
      NewProxiesManager.defaultProxyTryAttempts = 2 ∧
      ReachableByTryAttempts (DefaultTryAttempts NewProxiesManager 0).2 ∧
      (DefaultTryAttempts NewProxiesManager 0).2.defaultProxyTryAttempts < 1 := by
  refine ⟨by decide, by decide, ?_, by decide⟩
  exact ReachableByTryAttempts.step _ 0 ReachableByTryAttempts.init

/-- C7. For every manager with a non-empty pool of `N` elements and a cursor `c` in
`[0, N)`: `N` calls of `Next` return the manager, and so the cursor, to where it was;
the values of `Proxy()` read before each of these calls are the pool rotated by `c`,
that is the elements at `c, c+1 mod N, ..., c+N-1 mod N`, each pool position once. -/
theorem Next_cycles_through_pool (m : ProxiesManager) (hpool : m.proxies ≠ [])
    (h0 : 0 ≤ m.useIndex) (h1 : m.useIndex < Count m) :
    Next^[m.proxies.length] m = m ∧
      (List.range m.proxies.length).map (fun i => (Proxy (Next^[i] m)).1)
        = (m.proxies.rotate m.useIndex.toNat).map Except.ok ∧
      (∀ i, i < m.proxies.length →
        ∃ p, m.proxies[(m.useIndex.toNat + i) % m.proxies.length]? = some p ∧
          (Proxy (Next^[i] m)).1 = Except.ok p) := by
  have hN : 0 < m.proxies.length := List.length_pos.mpr hpool
  have hc : m.useIndex.toNat < m.proxies.length := by
    unfold Count at h1
    omega
  have hpoint : ∀ i, (Proxy (Next^[i] m)).1 = Except.ok (m.proxies.get
      ⟨(m.useIndex.toNat + i) % m.proxies.length, Nat.mod_lt _ hN⟩) :=
    fun i => hookAt_eq m hpool h0 h1 i
  refine ⟨?_, ?_, ?_⟩
  · rw [iterate_Next_eq m hpool h0 h1, Nat.add_mod_right, Nat.mod_eq_of_lt hc]
    exact manager_with_useIndex_self m _ (Int.toNat_of_nonneg h0)
  · apply List.ext_getElem
    · simp
    · intro i hi1 hi2
      have hi : i < m.proxies.length := by simpa using hi1
      rw [List.getElem_map, List.getElem_map, List.getElem_range, hpoint i,
        List.getElem_rotate]
      simp only [List.get_eq_getElem, Nat.add_comm]
  · intro i _
    refine ⟨m.proxies.get ⟨(m.useIndex.toNat + i) % m.proxies.length, Nat.mod_lt _ hN⟩,
      ?_, hpoint i⟩
    rw [List.getElem?_eq_getElem (Nat.mod_lt _ hN)]
    rfl

/-- C7, on three proxies with the cursor at 1: three calls of `Next` restore the
manager, and the proxies read on the way are B, C, A. -/
theorem Next_cycles_through_pool_witness :
    Next^[3] (Next threeProxies) = Next threeProxies ∧
      (List.range 3).map (fun i => (Proxy (Next^[i] (Next threeProxies))).1)
        = [Except.ok (some proxyB), Except.ok (some proxyC), Except.ok (some proxyA)] := by
  have h := Next_cycles_through_pool (Next threeProxies) (by decide) (by decide) (by decide)
  refine ⟨h.1, ?_⟩
  have h2 := h.2.1
  have e : (Next threeProxies).proxies.length = 3 := by decide
  rw [e] at h2
  rw [h2]
  decide

/-- On an empty pool `SelectRandom` panics inside `rand.Intn`, whatever the seed. -/
theorem SelectRandom_of_nil (m : ProxiesManager) (seed : Nat) (h : m.proxies = []) :
    SelectRandom m seed = Except.error "invalid argument to Intn" := by
  unfold SelectRandom randIntn
  rw [Count_eq_zero_of_nil m h]
  rfl

/-- On a non-empty pool `SelectRandom` returns and puts the cursor inside the pool. -/
theorem SelectRandom_of_ne_nil (m : ProxiesManager) (seed : Nat) (h : m.proxies ≠ []) :
    SelectRandom m seed = Except.ok { m with useIndex := (seed : Int) % Count m } ∧
      0 ≤ (seed : Int) % Count m ∧ (seed : Int) % Count m < Count m := by
  have hN := Count_pos_of_ne_nil m h
  have hc : ¬ Count m ≤ 0 := by omega
  refine ⟨?_, Int.emod_nonneg _ (by omega), Int.emod_lt_of_pos _ (by omega)⟩
  unfold SelectRandom randIntn
  rw [if_neg hc]

/-- C8 fails on the code: on a fresh manager, whose pool is empty, `SelectRandom` does
not return: `rand.Intn(0)` panics, for every state of the random source. -/
theorem SelectRandom_empty_pool_panics :
    NewProxiesManager.proxies = [] ∧
      ∀ seed : Nat, SelectRandom NewProxiesManager seed
        = Except.error "invalid argument to Intn" :=
  ⟨rfl, fun seed => SelectRandom_of_nil NewProxiesManager seed rfl⟩

theorem CursorOk_append (m : ProxiesManager) (l : List URLPtr) (h : CursorOk m) :
    CursorOk { m with proxies := m.proxies ++ l } := by
  unfold CursorOk Count at *
  dsimp only
  constructor
  · intro hnil
    exact h.1 (List.append_eq_nil.mp hnil).1
  · intro _
    by_cases hm : m.proxies = []
    · have hu := h.1 hm
      have hl : 0 < (m.proxies ++ l).length := List.length_pos.mpr (by assumption)
      omega
    · have hu := h.2 hm
      rw [List.length_append]
      omega

theorem CursorOk_Next (m : ProxiesManager) (h : CursorOk m) : CursorOk (Next m) := by
  unfold CursorOk Count at *
  by_cases hm : m.proxies = []
  · have hu := h.1 hm
    have hnext : Next m = { m with useIndex := 0 } := by
      unfold Next
      dsimp only
      rw [hm, hu]
      rfl
    rw [hnext]
    exact ⟨fun _ => rfl, fun hne => absurd hm hne⟩
  · have hu := h.2 hm
    have hlen : 0 < m.proxies.length := List.length_pos.mpr hm
    unfold Next
    dsimp only
    split
    · exact ⟨fun _ => rfl, fun _ => ⟨le_refl _, by dsimp only; omega⟩⟩
    · exact ⟨fun hnil => absurd hnil hm, fun _ => ⟨by dsimp only; omega, by dsimp only; omega⟩⟩

theorem CursorOk_loadLine (parse : String → Except GoError URL) (acc : ProxiesManager × Int)
    (line : String) (h : CursorOk acc.1) : CursorOk (loadLine parse acc line).1 := by
  unfold loadLine
  dsimp only
  split
  · exact h
  · split
    · exact h
    · exact CursorOk_append acc.1 _ h

theorem CursorOk_foldl_loadLine (parse : String → Except GoError URL) (lines : List String) :
    ∀ acc : ProxiesManager × Int, CursorOk acc.1 →
      CursorOk (lines.foldl (loadLine parse) acc).1 := by
  induction lines with
  | nil => exact fun _ h => h
  | cons line rest ih =>
    intro acc h
    rw [List.foldl_cons]
    exact ih _ (CursorOk_loadLine parse acc line h)

theorem CursorOk_retryLoop (client : Client) :
    ∀ (n i : Nat) (m : ProxiesManager) (last : DoResult) (tr : List Event) (r : CallResult),
      CursorOk m → retryLoop client n i m last tr = Except.ok r → CursorOk r.state := by
  intro n
  induction n with
  | zero =>
    intro i m last tr r h hr
    rw [retryLoop_zero] at hr
    cases hr
    exact h
  | succ n ih =>
    intro i m last tr r h hr
    cases hp : (Proxy m).1 with
    | error e =>
      rw [retryLoop_hook_panic client n i m last tr e hp] at hr
      cases hr
    | ok p =>
      rw [retryLoop_step client n i m last tr p hp] at hr
      split at hr
      · cases hr
        exact h
      · exact ih _ _ _ _ r (CursorOk_Next m h) hr

theorem CursorOk_proxiedRequest (client : Client) (m : ProxiesManager) (r : CallResult)
    (h : CursorOk m) (hr : proxiedRequest client m = Except.ok r) : CursorOk r.state := by
  unfold proxiedRequest at hr
  split at hr
  · cases hr
    exact h
  · exact CursorOk_retryLoop client _ _ _ _ _ r h hr

theorem Proxy_state (m : ProxiesManager) : (Proxy m).2 = m := by
  unfold Proxy
  split <;> rfl

/-- Every reachable state satisfies the invariant of the cursor. -/
theorem CursorOk_of_Reachable (m : ProxiesManager) (h : Reachable m) : CursorOk m := by
  induction h with
  | init => exact ⟨fun _ => rfl, fun hne => absurd rfl hne⟩
  | defaultScheme m scheme _ ih =>
    unfold DefaultScheme
    dsimp only
    split
    · exact ih
    · exact ih
  | defaultTryAttempts m count _ ih =>
    unfold DefaultTryAttempts
    dsimp only
    split
    · exact ih
    · exact ih
  | insertProxies m proxies _ ih => exact CursorOk_append m proxies ih
  | loadFromBuff parse m lines _ ih => exact CursorOk_foldl_loadLine parse lines (m, 0) ih
  | next m _ ih => exact CursorOk_Next m ih
  | nextProxy m _ ih =>
    unfold NextProxy
    rw [Proxy_state]
    exact CursorOk_Next m ih
  | selectRandom m m1 seed _ hsel ih =>
    by_cases hm : m.proxies = []
    · rw [SelectRandom_of_nil m seed hm] at hsel
      cases hsel
    · have hs := SelectRandom_of_ne_nil m seed hm
      rw [hs.1] at hsel
      cases hsel
      exact ⟨fun hnil => absurd hnil hm, fun _ => ⟨hs.2.1, hs.2.2⟩⟩
  | callRequest fresh httpClient m r _ hr ih =>
    cases httpClient with
    | none => exact CursorOk_proxiedRequest fresh m r ih hr
    | some c => exact CursorOk_proxiedRequest c m r ih hr

/-- Under the invariant of the cursor `Proxy` does not panic: it returns nil on an empty
pool and the pool element at the cursor otherwise. -/
theorem Proxy_of_CursorOk (m : ProxiesManager) (h : CursorOk m) :
    (m.proxies = [] → (Proxy m).1 = Except.ok none) ∧
      (m.proxies ≠ [] → ∃ p, m.proxies[m.useIndex.toNat]? = some p ∧
        (Proxy m).1 = Except.ok p) := by
  constructor
  · intro hm
    unfold Proxy
    rw [Count_eq_zero_of_nil m hm]
    rfl
  · intro hm
    have hu := h.2 hm
    have hc : ¬ Count m < 1 := by omega
    have hlt : m.useIndex.toNat < m.proxies.length := by
      unfold Count at hu
      omega
    refine ⟨m.proxies.get ⟨m.useIndex.toNat, hlt⟩, ?_, ?_⟩
    · rw [List.getElem?_eq_getElem hlt]
      rfl
    · unfold Proxy
      rw [if_neg hc]
      have e := sliceIndex_ofNat m.proxies m.useIndex.toNat hlt
      rw [Int.toNat_of_nonneg hu.1] at e
      exact e

/-- C9. In every state reachable from `NewProxiesManager` through `InsertProxies`, line
ingestion, `Next`, `NextProxy`, `SelectRandom` (where it returns, that is on a non-empty
pool), `CallRequest`, and the two configuration setters: the cursor satisfies
`0 ≤ useIndex < len(pool)` when the pool is non-empty and `useIndex = 0` when it is
empty, `Next` on an empty pool leaves the cursor at 0, and `Proxy()` does not index out
of bounds. -/
theorem Reachable_cursor_in_range (m : ProxiesManager) (h : Reachable m) :
    (m.proxies ≠ [] → 0 ≤ m.useIndex ∧ m.useIndex < Count m) ∧
      (m.proxies = [] → m.useIndex = 0 ∧ (Next m).useIndex = 0) ∧
      (∃ p, (Proxy m).1 = Except.ok p) := by
  have hinv := CursorOk_of_Reachable m h
  refine ⟨hinv.2, ?_, ?_⟩
  · intro hm
    exact ⟨hinv.1 hm, (CursorOk_Next m hinv).1 (by rw [Next_proxies]; exact hm)⟩
  · by_cases hm : m.proxies = []
    · exact ⟨none, (Proxy_of_CursorOk m hinv).1 hm⟩
    · obtain ⟨p, _, hp⟩ := (Proxy_of_CursorOk m hinv).2 hm
      exact ⟨p, hp⟩

/-- C9, on the state reached by inserting three proxies, a failed request of six
attempts and one further `Next`: the cursor is 1, inside the pool of 3; and on a fresh
manager `Next` leaves the cursor at 0. -/
theorem Reachable_cursor_in_range_witness :
    (∃ r, CallRequest alwaysFail none threeProxies = Except.ok r ∧
      doCalls r.trace = 6 ∧ Reachable (Next r.state) ∧
      (Next r.state).useIndex = 1 ∧ (Next r.state).useIndex < Count (Next r.state)) ∧
      (Next NewProxiesManager).useIndex = 0 := by
  have hcall : CallRequest alwaysFail none threeProxies
      = Except.ok ⟨none, some "connection refused", threeProxies,
          failBlocks 6 0 threeProxies⟩ := by decide
  have hreach : Reachable (Next threeProxies) :=
    Reachable.next _ (Reachable.callRequest _ _ _ _
      (Reachable.insertProxies _ _ Reachable.init) hcall)
  have h := Reachable_cursor_in_range _ hreach
  have h1 := h.1 (by decide)
  have h2 := (Reachable_cursor_in_range NewProxiesManager Reachable.init).2.1 rfl
  exact ⟨⟨_, hcall, by decide, hreach, by decide, h1.2⟩, h2.2⟩

/-- C10 (amended). For every manager whose cursor lies in `[0, len(pool))` when the pool
is non-empty: `Proxy()` changes no state, returns nil when the pool is empty, and
otherwise returns exactly the pool element at the cursor; when no pool element is a nil
pointer, it returns nil if and only if the pool is empty. -/
theorem Proxy_returns_cursor_element (m : ProxiesManager)
    (hcur : m.proxies ≠ [] → 0 ≤ m.useIndex ∧ m.useIndex < Count m) :
    (Proxy m).2 = m ∧
      (m.proxies = [] → (Proxy m).1 = Except.ok none) ∧
      (m.proxies ≠ [] → ∃ p, m.proxies[m.useIndex.toNat]? = some p ∧
        (Proxy m).1 = Except.ok p) ∧
      ((∀ p ∈ m.proxies, p ≠ none) → ((Proxy m).1 = Except.ok none ↔ m.proxies = [])) := by
  have hnil : m.proxies = [] → (Proxy m).1 = Except.ok none := by
    intro hm
    unfold Proxy
    rw [Count_eq_zero_of_nil m hm]
    rfl
  have hcons : m.proxies ≠ [] → ∃ p, m.proxies[m.useIndex.toNat]? = some p ∧
      (Proxy m).1 = Except.ok p := by
    intro hm
    have hu := hcur hm
    have hc : ¬ Count m < 1 := by omega
    have hlt : m.useIndex.toNat < m.proxies.length := by
      unfold Count at hu
      omega
    refine ⟨m.proxies.get ⟨m.useIndex.toNat, hlt⟩, ?_, ?_⟩
    · rw [List.getElem?_eq_getElem hlt]
      rfl
    · unfold Proxy
      rw [if_neg hc]
      have e := sliceIndex_ofNat m.proxies m.useIndex.toNat hlt
      rw [Int.toNat_of_nonneg hu.1] at e
      exact e
  refine ⟨Proxy_state m, hnil, hcons, ?_⟩
  intro hall
  constructor
  · intro hp
    by_contra hm
    obtain ⟨p, hget, hpe⟩ := hcons hm
    rw [hpe] at hp
    cases hp
    exact hall none (List.getElem?_mem hget) rfl
  · exact hnil

/-- C10, on three proxies with the cursor at 1: `Proxy()` returns proxy B and leaves the
manager as it is; on a fresh manager it returns nil. -/
theorem Proxy_returns_cursor_element_witness :
    (Proxy (Next threeProxies)).1 = Except.ok (some proxyB) ∧
      (Proxy (Next threeProxies)).2 = Next threeProxies ∧
      (Proxy NewProxiesManager).1 = Except.ok none := by
  have h := Proxy_returns_cursor_element (Next threeProxies) (fun _ => by decide)
  have h0 := Proxy_returns_cursor_element NewProxiesManager (fun hne => absurd rfl hne)
  exact ⟨by decide, h.1, h0.2.1 rfl⟩

/-- C10 as stated fails in two ways. After `InsertProxies` of a slice holding a nil
pointer, a reachable state, the pool is non-empty and `Proxy()` returns nil. With the
cursor outside the pool, `Proxy()` returns nothing: the index expression panics. -/
theorem Proxy_nil_or_panic_on_nonempty_pool :
    (Reachable nilProxy ∧ nilProxy.proxies ≠ [] ∧ (Proxy nilProxy).1 = Except.ok none) ∧
      (strayCursor.proxies ≠ [] ∧
        (Proxy strayCursor).1 = Except.error "index out of range") :=
  ⟨⟨Reachable.insertProxies _ _ Reachable.init, by decide, by decide⟩, by decide, by decide⟩

/-- C11. For every manager with pool `P` and every list `L`, `InsertProxies(L)` leaves
the pool equal to `P` followed by `L`, in order and with nothing dropped, so `Count`
grows by exactly `len(L)` and does not decrease; the cursor, the default scheme and the
retry multiplier are unchanged. -/
theorem InsertProxies_appends (m : ProxiesManager) (l : List URLPtr) :
    (InsertProxies m l).proxies = m.proxies ++ l ∧
      Count (InsertProxies m l) = Count m + (l.length : Int) ∧
      Count m ≤ Count (InsertProxies m l) ∧
      (InsertProxies m l).useIndex = m.useIndex ∧
      (InsertProxies m l).defaultScheme = m.defaultScheme ∧
      (InsertProxies m l).defaultProxyTryAttempts = m.defaultProxyTryAttempts := by
  have hc : Count (InsertProxies m l) = Count m + (l.length : Int) := by
    unfold Count InsertProxies
    dsimp only
    rw [List.length_append]
    push_cast
    rfl
  refine ⟨rfl, hc, ?_, rfl, rfl, rfl⟩
  rw [hc]
  omega

/-- C12. For every manager and every string `s`: a non-empty `s` is stored as the default
scheme and returned; for the empty string nothing changes and the stored default scheme
is returned, which is "http" on a fresh manager. The pool, the cursor and the retry
multiplier are unchanged in both cases. -/
theorem DefaultScheme_sets_or_reads (m : ProxiesManager) (s : String) :
    (s ≠ "" → (DefaultScheme m s).1 = s ∧ (DefaultScheme m s).2.defaultScheme = s) ∧
      (s = "" → (DefaultScheme m s).1 = m.defaultScheme ∧ (DefaultScheme m s).2 = m) ∧
      (DefaultScheme NewProxiesManager "").1 = "http" ∧
      (DefaultScheme m s).2.proxies = m.proxies ∧
      (DefaultScheme m s).2.useIndex = m.useIndex ∧
      (DefaultScheme m s).2.defaultProxyTryAttempts = m.defaultProxyTryAttempts := by
  unfold DefaultScheme
  dsimp only
  by_cases h : s ≠ ""
  · rw [if_pos h]
    exact ⟨fun _ => ⟨rfl, rfl⟩, fun h1 => absurd h1 h, by decide, rfl, rfl, rfl⟩
  · rw [if_neg h]
    exact ⟨fun h1 => absurd h1 h, fun _ => ⟨rfl, rfl⟩, by decide, rfl, rfl, rfl⟩

/-- C12, on a fresh manager with the scheme "socks5" and with the empty string. -/
theorem DefaultScheme_sets_or_reads_witness :
    (DefaultScheme NewProxiesManager "socks5").1 = "socks5" ∧
      (DefaultScheme NewProxiesManager "socks5").2.defaultScheme = "socks5" ∧
      (DefaultScheme NewProxiesManager "").1 = "http" ∧
      (DefaultScheme NewProxiesManager "").2 = NewProxiesManager :=
  have h1 := (DefaultScheme_sets_or_reads NewProxiesManager "socks5").1 (by decide)
  have h2 := (DefaultScheme_sets_or_reads NewProxiesManager "").2.1 rfl
  ⟨h1.1, h1.2, h2.1, h2.2⟩

/-- Neither `return` of `PrintAll` hands an error to the caller. -/
theorem printLoop_err_nil (sink : Sink) :
    ∀ (l : List URLPtr) (i : Nat) (bytesWritten : Int) (writes : List String)
      (r : PrintResult), printLoop sink l i bytesWritten writes = Except.ok r → r.err = none := by
  intro l
  induction l with
  | nil =>
    intro i bytesWritten writes r h
    simp only [printLoop] at h
    cases h
    rfl
  | cons p rest ih =>
    intro i bytesWritten writes r h
    cases p with
    | none =>
      simp only [printLoop] at h
      cases h
    | some proxy =>
      simp only [printLoop] at h
      split at h
      · cases h
        rfl
      · exact ih _ _ _ r h

/-- C13 fails on the code: with one proxy in the pool and a sink that rejects the write
with the error "write failed", `PrintAll` returns the byte count 0 together with a nil
error. -/
theorem PrintAll_swallows_write_error :
    (rejectingSink 0 (urlString proxyA ++ "\n")).2 = some "write failed" ∧
      PrintAll rejectingSink (InsertProxies NewProxiesManager [some proxyA])
        = Except.ok ⟨0, none, ["http://10.0.0.1:8080\n"]⟩ := by
  decide

theorem withDefaultScheme_eq (defaultScheme line : String) :
    (if !stringsContains line "://" then defaultScheme ++ "://" ++ line else line)
      = withDefaultScheme defaultScheme line := by
  unfold withDefaultScheme
  cases stringsContains line "://" <;> rfl

/-- One iteration of the loop of `loadFromBuff` stores the endpoint of an accepted line
and counts it, and does nothing for any other line. -/
theorem loadLine_eq (parse : String → Except GoError URL) (acc : ProxiesManager × Int)
    (line : String) :
    loadLine parse acc line =
      match acceptedEndpoint parse acc.1.defaultScheme line with
      | none => acc
      | some u => ({ acc.1 with proxies := acc.1.proxies ++ [some u] }, acc.2 + 1) := by
  unfold loadLine acceptedEndpoint
  dsimp only
  rw [withDefaultScheme_eq]
  cases parse (withDefaultScheme acc.1.defaultScheme line) with
  | error e => rfl
  | ok host =>
    dsimp only
    by_cases hh : host.Host = ""
    · rw [if_pos hh, if_pos hh]
    · rw [if_neg hh, if_neg hh]

theorem foldl_loadLine_eq (parse : String → Except GoError URL) (lines : List String) :
    ∀ acc : ProxiesManager × Int,
      lines.foldl (loadLine parse) acc =
        ({ acc.1 with proxies := acc.1.proxies ++
            (acceptedEndpoints parse acc.1.defaultScheme lines).map some },
          acc.2 + ((acceptedEndpoints parse acc.1.defaultScheme lines).length : Int)) := by
  induction lines with
  | nil =>
    intro acc
    simp [acceptedEndpoints]
  | cons line rest ih =>
    intro acc
    rw [List.foldl_cons, ih, loadLine_eq]
    unfold acceptedEndpoints
    rw [List.filterMap_cons]
    cases acceptedEndpoint parse acc.1.defaultScheme line with
    | none => rfl
    | some u =>
      dsimp only
      simp only [List.map_cons, List.length_cons, List.append_assoc, List.singleton_append]
      congr 1
      push_cast
      omega

/-- Over the lines that the scanner yields, for every behaviour of `url.Parse`:
`loadFromBuff` appends to the pool exactly the endpoints of the accepted lines in input
order, leaves the earlier elements, the cursor and the configuration unchanged, and
returns the number of endpoints appended, which is 0 when no line is accepted. -/
theorem loadFromBuff_appends_accepted (parse : String → Except GoError URL)
    (m : ProxiesManager) (lines : List String) :
    loadFromBuff parse m lines =
        (((acceptedEndpoints parse m.defaultScheme lines).length : Int),
          { m with proxies := m.proxies ++
              (acceptedEndpoints parse m.defaultScheme lines).map some }) ∧
      (loadFromBuff parse m lines).2.proxies.take m.proxies.length = m.proxies ∧
      (loadFromBuff parse m lines).2.useIndex = m.useIndex ∧
      Count (loadFromBuff parse m lines).2 = Count m + (loadFromBuff parse m lines).1 ∧
      (acceptedEndpoints parse m.defaultScheme lines = [] →
        loadFromBuff parse m lines = (0, m)) := by
  have h : loadFromBuff parse m lines =
      (((acceptedEndpoints parse m.defaultScheme lines).length : Int),
        { m with proxies := m.proxies ++
            (acceptedEndpoints parse m.defaultScheme lines).map some }) := by
    unfold loadFromBuff
    dsimp only
    rw [foldl_loadLine_eq]
    simp
  refine ⟨h, ?_, ?_, ?_, ?_⟩
  · rw [h]
    simp
  · rw [h]
  · rw [h]
    unfold Count
    simp
  · intro hnil
    rw [h, hnil]
    simp

/-- On a manager with default scheme "socks5" and one proxy in the pool: of the lines
"10.0.0.9:1080" and "a b", the first is accepted with the scheme "socks5" in front and
appended, the second is skipped, and the count is 1. -/
theorem loadFromBuff_socks_example :
    loadFromBuff urlParse (InsertProxies socksDefault [some proxyA]) ["10.0.0.9:1080", "a b"]
      = (1, { InsertProxies socksDefault [some proxyA] with
          proxies := [some proxyA, some { Scheme := "socks5", Host := "10.0.0.9:1080" }] }) := by
  have h := (loadFromBuff_appends_accepted urlParse (InsertProxies socksDefault [some proxyA])
    ["10.0.0.9:1080", "a b"]).1
  rw [h]
  decide

theorem acceptedEndpoint_valid (parse : String → Except GoError URL)
    (defaultScheme line : String) (v : URL)
    (h : acceptedEndpoint parse defaultScheme line = some v) : v.Host ≠ "" ∧ v.Scheme ≠ "" := by
  unfold acceptedEndpoint at h
  cases hp : parse (withDefaultScheme defaultScheme line) with
  | error e =>
    rw [hp] at h
    cases h
  | ok u =>
    rw [hp] at h
    dsimp only at h
    by_cases hh : u.Host = ""
    · rw [if_pos hh] at h
      cases h
    · rw [if_neg hh] at h
      by_cases hs : u.Scheme = ""
      · rw [if_pos hs] at h
        cases h
        refine ⟨hh, ?_⟩
        show ("http" : String) ≠ ""
        decide
      · rw [if_neg hs] at h
        cases h
        exact ⟨hh, hs⟩

theorem acceptedEndpoints_split (parse : String → Except GoError URL) (defaultScheme : String)
    (pre post : List String) (line : String) :
    acceptedEndpoints parse defaultScheme (pre ++ line :: post) =
      acceptedEndpoints parse defaultScheme pre ++
        ((acceptedEndpoint parse defaultScheme line).toList ++
          acceptedEndpoints parse defaultScheme post) := by
  unfold acceptedEndpoints
  rw [List.filterMap_append, List.filterMap_cons]
  cases acceptedEndpoint parse defaultScheme line <;> rfl

/-- C15. For every behaviour of `url.Parse`, every manager and every sequence of lines:
the pool after `loadFromBuff` is the pool before it followed by the endpoints of the
accepted lines, and every endpoint appended is a non-nil pointer to an endpoint with a
non-empty host and a non-empty scheme. A line, at any place of the input, whose parse
fails or yields an empty host is neither stored nor counted: the result is that of the
input without the line. A line, at any place of the input, that parses to a non-empty
host and an empty scheme is counted once and stored at its place with the scheme
"http", whatever the configured default scheme is. -/
theorem loadFromBuff_stores_valid_endpoints (parse : String → Except GoError URL)
    (m : ProxiesManager) (lines : List String) :
    loadFromBuff parse m lines =
        (((acceptedEndpoints parse m.defaultScheme lines).length : Int),
          { m with proxies := m.proxies ++
              (acceptedEndpoints parse m.defaultScheme lines).map some }) ∧
      (∀ p ∈ (loadFromBuff parse m lines).2.proxies.drop m.proxies.length,
        ∃ u, p = some u ∧ u.Host ≠ "" ∧ u.Scheme ≠ "") ∧
      (∀ pre line post, lines = pre ++ line :: post →
        (∀ u, parse (withDefaultScheme m.defaultScheme line) = Except.ok u → u.Host = "") →
        loadFromBuff parse m lines = loadFromBuff parse m (pre ++ post)) ∧
      (∀ pre line post u, lines = pre ++ line :: post →
        parse (withDefaultScheme m.defaultScheme line) = Except.ok u →
        u.Host ≠ "" → u.Scheme = "" →
        (loadFromBuff parse m lines).1
            = (loadFromBuff parse m pre).1 + 1 + (loadFromBuff parse m post).1 ∧
          (loadFromBuff parse m lines).2.proxies
            = (loadFromBuff parse m pre).2.proxies ++
                some { u with Scheme := "http" } ::
                  (loadFromBuff parse m post).2.proxies.drop m.proxies.length) := by
  have hall := fun ls => (loadFromBuff_appends_accepted parse m ls).1
  refine ⟨hall lines, ?_, ?_, ?_⟩
  · intro p hp
    rw [hall lines] at hp
    dsimp only at hp
    rw [List.drop_left] at hp
    obtain ⟨v, hv, rfl⟩ := List.mem_map.mp hp
    unfold acceptedEndpoints at hv
    obtain ⟨line, _, hline⟩ := List.mem_filterMap.mp hv
    exact ⟨v, rfl, acceptedEndpoint_valid parse m.defaultScheme line v hline⟩
  · intro pre line post hlines hline
    have hnone : acceptedEndpoint parse m.defaultScheme line = none := by
      unfold acceptedEndpoint
      cases hp : parse (withDefaultScheme m.defaultScheme line) with
      | error e => rfl
      | ok u =>
        dsimp only
        rw [if_pos (hline u hp)]
    have hsame : acceptedEndpoints parse m.defaultScheme lines
        = acceptedEndpoints parse m.defaultScheme (pre ++ post) := by
      rw [hlines, acceptedEndpoints_split, hnone]
      unfold acceptedEndpoints
      rw [List.filterMap_append]
      rfl
    rw [hall lines, hall (pre ++ post), hsame]
  · intro pre line post u hlines hp hh hs
    have hsome : acceptedEndpoint parse m.defaultScheme line
        = some { u with Scheme := "http" } := by
      unfold acceptedEndpoint
      rw [hp]
      dsimp only
      rw [if_neg hh, if_pos hs]
    have hsplit : acceptedEndpoints parse m.defaultScheme lines
        = acceptedEndpoints parse m.defaultScheme pre ++
            ({ u with Scheme := "http" } :: acceptedEndpoints parse m.defaultScheme post) := by
      rw [hlines, acceptedEndpoints_split, hsome]
      rfl
    rw [hall lines, hall pre, hall post, hsplit]
    dsimp only
    constructor
    · rw [List.length_append, List.length_cons]
      push_cast
      omega
    · rw [List.drop_left, List.map_append, List.map_cons, List.append_assoc]

/-- C15, on a manager whose default scheme is "socks5" and the four lines
"10.0.0.9:1080", "http://", "//host/a://b" and "a b": the second line, which parses to
an empty host, changes nothing; the third, which parses to the host "host" without a
scheme, is stored after the first with the scheme "http"; the count is 2. -/
theorem loadFromBuff_stores_valid_endpoints_witness :
    socksDefault.defaultScheme = "socks5" ∧
      loadFromBuff urlParse socksDefault mixedLines
        = loadFromBuff urlParse socksDefault ["10.0.0.9:1080", "//host/a://b", "a b"] ∧
      (loadFromBuff urlParse socksDefault mixedLines).1 = 2 ∧
      (loadFromBuff urlParse socksDefault mixedLines).2.proxies
        = [some { Scheme := "socks5", Host := "10.0.0.9:1080" },
          some { Scheme := "http", Host := "host", Path := "/a://b" }] := by
  have h := loadFromBuff_stores_valid_endpoints urlParse socksDefault mixedLines
  have h2 := h.2.2.1 ["10.0.0.9:1080"] "http://" ["//host/a://b", "a b"] rfl (by
    intro u hu
    have e : urlParse (withDefaultScheme socksDefault.defaultScheme "http://")
        = Except.ok { Scheme := "http" } := by decide
    rw [e] at hu
    cases hu
    rfl)
  have h3 := h.2.2.2 ["10.0.0.9:1080", "http://"] "//host/a://b" ["a b"]
    { Host := "host", Path := "/a://b" } rfl (by decide) (by decide) (by decide)
  refine ⟨by decide, h2, ?_, ?_⟩
  · rw [h3.1]
    decide
  · rw [h3.2]
    decide

/-- C16. On a fresh manager, whose default scheme is "http", the four lines
"1.2.3.4:8080", "http://5.6.7.8:3128", "not a valid proxy ::://" and "" make
`loadFromBuff` return 2 and leave a pool of exactly two endpoints: scheme "http" and
host "1.2.3.4:8080", parsed from the line with "http://" in front, then scheme "http"
and host "5.6.7.8:3128". The third line does not parse and the empty line parses to an
empty host; both are skipped. A scanner yields these four lines from the text that
holds them one per line. -/
theorem loadFromBuff_sample_lines :
    loadFromBuff urlParse NewProxiesManager sampleLines
        = (2, { NewProxiesManager with
            proxies := [some { Scheme := "http", Host := "1.2.3.4:8080" },
              some { Scheme := "http", Host := "5.6.7.8:3128" }] }) ∧
      withDefaultScheme "http" "1.2.3.4:8080" = "http://1.2.3.4:8080" ∧
      withDefaultScheme "http" "http://5.6.7.8:3128" = "http://5.6.7.8:3128" ∧
      urlParse "not a valid proxy ::://"
        = Except.error "first path segment in URL cannot contain colon" ∧
      urlParse (withDefaultScheme "http" "") = Except.ok { Scheme := "http" } ∧
      scanLines "1.2.3.4:8080\nhttp://5.6.7.8:3128\nnot a valid proxy ::://\n\n"
        = sampleLines := by
  decide

theorem printLoop_accepting (us : List URL) :
    ∀ (i : Nat) (bytesWritten : Int) (writes : List String),
      ∃ total, printLoop acceptingSink (us.map some) i bytesWritten writes
        = Except.ok ⟨total, none, writes ++ us.map (fun u => urlString u ++ "\n")⟩ := by
  induction us with
  | nil =>
    intro i bytesWritten writes
    exact ⟨bytesWritten, by simp [printLoop]⟩
  | cons u rest ih =>
    intro i bytesWritten writes
    obtain ⟨total, ht⟩ := ih (i + 1)
      (wrapInt (bytesWritten + (acceptingSink i (urlString u ++ "\n")).1))
      (writes ++ [urlString u ++ "\n"])
    refine ⟨total, ?_⟩
    simp only [List.map_cons, printLoop]
    have hacc : ¬ ((acceptingSink i (urlString u ++ "\n")).2 ≠ none) := by
      simp [acceptingSink]
    rw [if_neg hacc, ht]
    simp

theorem foldl_append_data (ws : List String) :
    ∀ acc : String, (ws.foldl (fun a w => a ++ w) acc).data
      = acc.data ++ (ws.map String.data).flatten := by
  induction ws with
  | nil =>
    intro acc
    simp
  | cons w rest ih =>
    intro acc
    rw [List.foldl_cons, ih, String.data_append]
    simp

theorem written_data (ws : List String) : (written ws).data = (ws.map String.data).flatten := by
  unfold written
  rw [foldl_append_data]
  rfl

theorem rawLinesAux_line (l rest cur : List Char) (h : '\n' ∉ l) :
    rawLinesAux (l ++ '\n' :: rest) cur = (cur.reverse ++ l) :: rawLinesAux rest [] := by
  induction l generalizing cur with
  | nil => simp [rawLinesAux]
  | cons c cs ih =>
    have hc : c ≠ '\n' := fun e => h (by rw [e]; exact List.mem_cons_self _ _)
    have hcs : '\n' ∉ cs := fun e => h (List.mem_cons_of_mem _ e)
    rw [List.cons_append]
    simp only [rawLinesAux]
    rw [if_neg hc, ih _ hcs]
    simp

theorem rawLinesAux_lines (ss : List String) (h : ∀ s ∈ ss, '\n' ∉ s.data) :
    rawLinesAux ((ss.map (fun s => (s ++ "\n").data)).flatten) [] = ss.map String.data := by
  induction ss with
  | nil => rfl
  | cons s rest ih =>
    have hs : '\n' ∉ s.data := h s (List.mem_cons_self _ _)
    have hrest : ∀ t ∈ rest, '\n' ∉ t.data := fun t ht => h t (List.mem_cons_of_mem _ ht)
    rw [List.map_cons, List.flatten_cons, String.data_append]
    have e : ("\n" : String).data = ['\n'] := rfl
    rw [e, List.append_assoc, List.singleton_append, rawLinesAux_line _ _ _ hs, ih hrest]
    simp

theorem singleLine_spec (s : String) (h : singleLine s = true) :
    '\n' ∉ s.data ∧ s.data.getLast? ≠ some '\r' ∧ s.data.length < maxScanTokenSize := by
  unfold singleLine at h
  simp only [Bool.and_eq_true, Bool.not_eq_true', decide_eq_true_eq] at h
  obtain ⟨⟨h1, h2⟩, h3⟩ := h
  refine ⟨?_, ?_, h3⟩
  · intro hmem
    have : s.data.contains '\n' = true := by simpa using hmem
    rw [h1] at this
    cases this
  · intro hlast
    rw [hlast] at h2
    simp at h2

/-- A scanner reads back, line by line, single-line strings that were written one per
line. -/
theorem scanLines_written (ss : List String) (h : ∀ s ∈ ss, singleLine s = true) :
    scanLines (written (ss.map (fun s => s ++ "\n"))) = ss := by
  unfold scanLines
  rw [written_data, List.map_map]
  have hfun : (String.data ∘ fun s => s ++ "\n") = fun s => (s ++ "\n").data := rfl
  rw [hfun, rawLinesAux_lines ss (fun s hs => (singleLine_spec s (h s hs)).1)]
  have htake : (ss.map String.data).takeWhile (fun l => decide (l.length < maxScanTokenSize))
      = ss.map String.data := by
    rw [List.takeWhile_eq_self_iff]
    intro l hl
    obtain ⟨s, hs, rfl⟩ := List.mem_map.mp hl
    simpa using (singleLine_spec s (h s hs)).2.2
  rw [htake, List.map_map]
  conv_rhs => rw [← List.map_id ss]
  apply List.map_congr_left
  intro s hs
  have hcr := (singleLine_spec s (h s hs)).2.1
  simp only [Function.comp_apply, dropCR, if_neg hcr, id]

/-- To an accepting sink `PrintAll` writes the canonical string of every endpoint, one per
line, and a scanner reads these strings back when each is a single line. -/
theorem PrintAll_then_scanLines (m : ProxiesManager) (us : List URL)
    (hpool : m.proxies = us.map some)
    (hline : ∀ u ∈ us, singleLine (urlString u) = true) :
    ∃ r, PrintAll acceptingSink m = Except.ok r ∧ r.err = none ∧
      r.writes = us.map (fun u => urlString u ++ "\n") ∧
      scanLines (written r.writes) = us.map urlString := by
  obtain ⟨total, ht⟩ := printLoop_accepting us 0 0 []
  rw [List.nil_append] at ht
  refine ⟨⟨total, none, us.map (fun u => urlString u ++ "\n")⟩, ?_, rfl, rfl, ?_⟩
  · unfold PrintAll
    rw [hpool]
    exact ht
  · have h := scanLines_written (us.map urlString) (by
      intro s hs
      obtain ⟨u, hu, rfl⟩ := List.mem_map.mp hs
      exact hline u hu)
    rw [List.map_map] at h
    exact h

/-- C18. For every manager with a non-empty pool of size `N`, starting cursor `c` and
multiplier `k ≥ 1`, when every attempt of `proxiedRequest` fails, the call returns, the
proxy hook of attempt `i` reads the cursor as it stands then and yields the pool element
at index `(c + i) mod N`, and the hooks of the `k * N` attempts are `k` copies of the
pool rotated by `c`, so every endpoint is tried exactly `k` times, in rotation order.
The cursor is taken inside the pool and the product `k * N` within the range of `int`,
as in every state that the exported operations produce from a pool that fits into
memory. -/
theorem proxiedRequest_tries_in_rotation (client : Client) (m : ProxiesManager)
    (hpool : m.proxies ≠ []) (h0 : 0 ≤ m.useIndex) (h1 : m.useIndex < Count m)
    (hk : 1 ≤ m.defaultProxyTryAttempts)
    (hrange : m.defaultProxyTryAttempts * Count m ≤ intMax)
    (hfail : ∀ i h, (client i h).err ≠ none) :
    ∃ r, proxiedRequest client m = Except.ok r ∧
      (∀ i : Nat, (i : Int) < m.defaultProxyTryAttempts * Count m →
        ∃ p, m.proxies[(m.useIndex.toNat + i) % m.proxies.length]? = some p ∧
          r.trace[2 * i]? = some (Event.doCall i (Except.ok p))) ∧
      (List.range (m.defaultProxyTryAttempts * Count m).toNat).map (hookAt m)
        = ((List.replicate m.defaultProxyTryAttempts.toNat
            (m.proxies.rotate m.useIndex.toNat)).flatten).map Except.ok := by
  have hN := Count_pos_of_ne_nil m hpool
  have hlen : 0 < m.proxies.length := List.length_pos.mpr hpool
  obtain ⟨k, hkk⟩ : ∃ k : Nat, m.defaultProxyTryAttempts = (k : Int) :=
    ⟨m.defaultProxyTryAttempts.toNat, by omega⟩
  have hprod : m.defaultProxyTryAttempts * Count m = ((k * m.proxies.length : Nat) : Int) := by
    rw [hkk]
    unfold Count
    push_cast
    rfl
  have hkpos : 0 < k := by omega
  have hnpos : 0 < k * m.proxies.length := Nat.mul_pos hkpos hlen
  have hmin : intMin ≤ m.defaultProxyTryAttempts * Count m := by
    rw [hprod]
    unfold intMin
    omega
  have hb : attemptBound m = ((k * m.proxies.length : Nat) : Int) := by
    unfold attemptBound
    rw [wrapInt_of_range _ hmin hrange, hprod]
  have hf : ∀ t, t < k * m.proxies.length → (attemptResult client m t).err ≠ none :=
    fun t _ => hfail _ _
  refine ⟨_, proxiedRequest_failed_eq client m _ hpool h0 h1 hb hnpos hf, ?_, ?_⟩
  · intro i hi
    rw [hprod] at hi
    have hi2 : i < k * m.proxies.length := by exact_mod_cast hi
    refine ⟨m.proxies.get ⟨(m.useIndex.toNat + i) % m.proxies.length, Nat.mod_lt _ hlen⟩,
      ?_, ?_⟩
    · rw [List.getElem?_eq_getElem (Nat.mod_lt _ hlen)]
      rfl
    · have h := (failBlocks_getElem (k * m.proxies.length) 0 m i hi2).1
      rw [Nat.zero_add, hookAt_eq m hpool h0 h1 i] at h
      exact h
  · rw [hprod, hkk, Int.toNat_ofNat, Int.toNat_ofNat]
    exact hooks_sweeps m hpool h0 h1 k

/-- C18, on three proxies with multiplier 2 and the cursor at 0: the six attempts go
through A, B, C, A, B, C. -/
theorem proxiedRequest_tries_in_rotation_witness :
    (List.range 6).map (hookAt threeProxies)
        = [Except.ok (some proxyA), Except.ok (some proxyB), Except.ok (some proxyC),
          Except.ok (some proxyA), Except.ok (some proxyB), Except.ok (some proxyC)] ∧
      ∃ r, proxiedRequest alwaysFail threeProxies = Except.ok r ∧
        r.trace[2 * 4]? = some (Event.doCall 4 (Except.ok (some proxyB))) := by
  obtain ⟨r, hr, hroute, hsweep⟩ :=
    proxiedRequest_tries_in_rotation alwaysFail threeProxies (by decide) (by decide)
      (by decide) (by decide) (by decide) (by intro i h; simp [alwaysFail])
  constructor
  · have e : (threeProxies.defaultProxyTryAttempts * Count threeProxies).toNat = 6 := by decide
    rw [e] at hsweep
    rw [hsweep]
    decide
  · refine ⟨r, hr, ?_⟩
    obtain ⟨p, hp, htr⟩ := hroute 4 (by decide)
    rw [htr]
    have e : threeProxies.proxies[(threeProxies.useIndex.toNat + 4) % threeProxies.proxies.length]?
        = some (some proxyB) := by decide
    rw [e] at hp
    cases hp
    rfl

/-- C19. For every manager with a non-empty pool of size `N`, a cursor `c` in `[0, N)`
and a multiplier `k ≥ 0`: when every attempt of `proxiedRequest` fails, the call returns
and the manager on return is the one before the call, so the cursor is back at `c` and
the pool is unchanged; when attempt `j < k * N` is the first without a transport error,
the call returns with the cursor at `(c + j) mod N` and the pool unchanged. The product
`k * N` is taken within the range of `int`, as in every state that the exported
operations produce from a pool that fits into memory. -/
theorem proxiedRequest_cursor_on_return (client : Client) (m : ProxiesManager)
    (hpool : m.proxies ≠ []) (h0 : 0 ≤ m.useIndex) (h1 : m.useIndex < Count m)
    (hk : 0 ≤ m.defaultProxyTryAttempts)
    (hrange : m.defaultProxyTryAttempts * Count m ≤ intMax) :
    ((∀ i h, (client i h).err ≠ none) →
        ∃ r, proxiedRequest client m = Except.ok r ∧ r.state = m) ∧
      (∀ j : Nat, (j : Int) < m.defaultProxyTryAttempts * Count m →
        (∀ t, t < j → (attemptResult client m t).err ≠ none) →
        (attemptResult client m j).err = none →
        ∃ r, proxiedRequest client m = Except.ok r ∧
          r.state.useIndex = (((m.useIndex.toNat + j) % m.proxies.length : Nat) : Int) ∧
          r.state.proxies = m.proxies) := by
  have hN := Count_pos_of_ne_nil m hpool
  obtain ⟨k, hkk⟩ : ∃ k : Nat, m.defaultProxyTryAttempts = (k : Int) :=
    ⟨m.defaultProxyTryAttempts.toNat, by omega⟩
  have hprod : m.defaultProxyTryAttempts * Count m = ((k * m.proxies.length : Nat) : Int) := by
    rw [hkk]
    unfold Count
    push_cast
    rfl
  have hmin : intMin ≤ m.defaultProxyTryAttempts * Count m := by
    rw [hprod]
    unfold intMin
    omega
  have hb : attemptBound m = ((k * m.proxies.length : Nat) : Int) := by
    unfold attemptBound
    rw [wrapInt_of_range _ hmin hrange, hprod]
  constructor
  · intro hfail
    by_cases hz : k * m.proxies.length = 0
    · have hc : ¬ Count m < 1 := by omega
      refine ⟨⟨none, none, m, []⟩, ?_, rfl⟩
      unfold proxiedRequest
      rw [if_neg hc, hb, hz]
      rfl
    · have hf : ∀ t, t < k * m.proxies.length → (attemptResult client m t).err ≠ none :=
        fun t _ => hfail _ _
      exact ⟨_, proxiedRequest_failed_eq client m _ hpool h0 h1 hb (Nat.pos_of_ne_zero hz) hf,
        iterate_Next_period m hpool h0 h1 k⟩
  · intro j hj hfail hok
    have hjb : (j : Int) < attemptBound m := by
      rw [hb, ← hprod]
      exact hj
    refine ⟨_, proxiedRequest_success_eq client m j hpool h0 h1 hjb hfail hok, ?_⟩
    dsimp only
    rw [iterate_Next_eq m hpool h0 h1 j]
    exact ⟨rfl, rfl⟩

/-- C19, on three proxies with multiplier 2 and the cursor at 1: after six failed
attempts the manager is as before; when attempt 1 is the first to succeed the cursor
on return is 2. -/
theorem proxiedRequest_cursor_on_return_witness :
    (∃ r, proxiedRequest alwaysFail (Next threeProxies) = Except.ok r ∧
      r.state = Next threeProxies) ∧
    (∃ r, proxiedRequest failOnce (Next threeProxies) = Except.ok r ∧
      r.state.useIndex = 2) := by
  have h := proxiedRequest_cursor_on_return alwaysFail (Next threeProxies) (by decide)
    (by decide) (by decide) (by decide) (by decide)
  have h2 := proxiedRequest_cursor_on_return failOnce (Next threeProxies) (by decide)
    (by decide) (by decide) (by decide) (by decide)
  refine ⟨h.1 (by intro i h; simp [alwaysFail]), ?_⟩
  obtain ⟨r, hr, hidx, _⟩ :=
    h2.2 1 (by decide) (by intro t ht; interval_cases t; decide) (by decide)
  refine ⟨r, hr, ?_⟩
  rw [hidx]
  decide

/-- C20. For every manager and every `TargetSite` with a nil request: when `url` is empty,
`LoadFromWeb` returns the count 0 with a non-nil error; when `url` is not empty and
`http.NewRequest` fails on it, `LoadFromWeb` returns the count 0 with a nil error. In
both cases no request is handed to the client and the manager is unchanged. -/
theorem LoadFromWeb_without_request (parse : String → Except GoError URL)
    (newRequest : String → String → Except GoError Request) (fresh : HTTPClient)
    (m : ProxiesManager) (ts : TargetSite) (httpClient : Option HTTPClient)
    (useProxies : Bool) (hreq : ts.request = none) :
    (ts.url = "" →
        LoadFromWeb parse newRequest fresh m ts httpClient useProxies
          = Except.ok ⟨0, some "neither url or request was provided", m, [], []⟩) ∧
      (ts.url ≠ "" → (∃ e, newRequest "GET" ts.url = Except.error e) →
        LoadFromWeb parse newRequest fresh m ts httpClient useProxies
          = Except.ok ⟨0, none, m, [], []⟩) := by
  constructor
  · intro hurl
    unfold LoadFromWeb
    rw [hreq]
    dsimp only
    rw [if_pos hurl]
  · intro hurl hnew
    obtain ⟨e, he⟩ := hnew
    unfold LoadFromWeb
    rw [hreq]
    dsimp only
    rw [if_neg hurl, he]

/-- C20, on three proxies, with a client that would answer: the empty URL gives count 0
and an error, a URL that `http.NewRequest` rejects gives count 0 and a nil error, and
the manager stays as it is. -/
theorem LoadFromWeb_without_request_witness :
    LoadFromWeb urlParse rejectAll oneLineClient threeProxies ⟨"", none⟩ none true
        = Except.ok ⟨0, some "neither url or request was provided", threeProxies, [], []⟩ ∧
      LoadFromWeb urlParse rejectAll oneLineClient threeProxies ⟨"http://x y", none⟩
          (some oneLineClient) false
        = Except.ok ⟨0, none, threeProxies, [], []⟩ :=
  ⟨(LoadFromWeb_without_request urlParse rejectAll oneLineClient threeProxies ⟨"", none⟩ none
      true rfl).1 rfl,
    (LoadFromWeb_without_request urlParse rejectAll oneLineClient threeProxies
      ⟨"http://x y", none⟩ (some oneLineClient) false rfl).2 (by decide) ⟨"invalid URL", rfl⟩⟩

theorem scanLines_of_short (data : String)
    (hshort : ∀ l ∈ rawLinesAux data.data [], l.length < maxScanTokenSize) :
    scanLines data = inputLines data := by
  unfold scanLines inputLines
  have htake : (rawLinesAux data.data []).takeWhile
      (fun l => decide (l.length < maxScanTokenSize)) = rawLinesAux data.data [] := by
    rw [List.takeWhile_eq_self_iff]
    intro l hl
    simpa using hshort l hl
  rw [htake]

/-- C14 (amended). For every manager with pool `P`, every behaviour of `url.Parse` and
every input text all of whose lines are shorter than the buffer of the scanner
(64 KiB): `loadFromBuff` returns (it is a total function), reads exactly the lines of
the text, appends to `P` exactly the endpoints of the accepted lines in input order,
leaves the earlier elements of `P` and the cursor unchanged, and returns the number of
endpoints appended, which is 0 when no line is accepted. -/
theorem loadFromBuff_reads_short_lines (parse : String → Except GoError URL)
    (m : ProxiesManager) (data : String)
    (hshort : ∀ l ∈ rawLinesAux data.data [], l.length < maxScanTokenSize) :
    scanLines data = inputLines data ∧
      loadFromBuff parse m (scanLines data) =
        (((acceptedEndpoints parse m.defaultScheme (inputLines data)).length : Int),
          { m with proxies := m.proxies ++
              (acceptedEndpoints parse m.defaultScheme (inputLines data)).map some }) ∧
      (loadFromBuff parse m (scanLines data)).2.proxies.take m.proxies.length = m.proxies ∧
      (loadFromBuff parse m (scanLines data)).2.useIndex = m.useIndex ∧
      Count (loadFromBuff parse m (scanLines data)).2
        = Count m + (loadFromBuff parse m (scanLines data)).1 ∧
      (acceptedEndpoints parse m.defaultScheme (inputLines data) = [] →
        loadFromBuff parse m (scanLines data) = (0, m)) := by
  have hs := scanLines_of_short data hshort
  have h := loadFromBuff_appends_accepted parse m (inputLines data)
  rw [hs]
  exact ⟨rfl, h.1, h.2.1, h.2.2.1, h.2.2.2.1, h.2.2.2.2⟩

/-- C14, on the text of the four sample lines read by a fresh manager. -/
theorem loadFromBuff_reads_short_lines_witness :
    loadFromBuff urlParse NewProxiesManager
        (scanLines "1.2.3.4:8080\nhttp://5.6.7.8:3128\nnot a valid proxy ::://\n\n")
      = (((acceptedEndpoints urlParse "http" sampleLines).length : Int),
          { NewProxiesManager with proxies :=
              [] ++ (acceptedEndpoints urlParse "http" sampleLines).map some }) ∧
      acceptedEndpoints urlParse "http" sampleLines
        = [{ Scheme := "http", Host := "1.2.3.4:8080" },
          { Scheme := "http", Host := "5.6.7.8:3128" }] := by
  have h := (loadFromBuff_reads_short_lines urlParse NewProxiesManager
    "1.2.3.4:8080\nhttp://5.6.7.8:3128\nnot a valid proxy ::://\n\n" (by decide)).2.1
  have e : inputLines "1.2.3.4:8080\nhttp://5.6.7.8:3128\nnot a valid proxy ::://\n\n"
      = sampleLines := by decide
  rw [e] at h
  exact ⟨h, by decide⟩

theorem rawLinesAux_longLineInput :
    rawLinesAux longLineInput.data [] = [List.replicate 65536 'a', "1.2.3.4:8080".data] := by
  have hno : '\n' ∉ List.replicate 65536 'a' := by
    intro h
    have := List.eq_of_mem_replicate h
    exact absurd this (by decide)
  unfold longLineInput
  dsimp only
  rw [rawLinesAux_line _ _ _ hno]
  have hrest : rawLinesAux "1.2.3.4:8080\n".data [] = ["1.2.3.4:8080".data] := by decide
  rw [hrest]
  rfl

/-- C14 as stated fails on an input with a line of 64 KiB: the scanner stops at that
line, so the line "1.2.3.4:8080" after it, an accepted line, is never read, and
`loadFromBuff` returns 0 and appends nothing. -/
theorem long_line_stops_ingestion :
    inputLines longLineInput
        = [String.mk (List.replicate 65536 'a'), "1.2.3.4:8080"] ∧
      acceptedEndpoint urlParse NewProxiesManager.defaultScheme "1.2.3.4:8080"
        = some { Scheme := "http", Host := "1.2.3.4:8080" } ∧
      scanLines longLineInput = [] ∧
      loadFromBuff urlParse NewProxiesManager (scanLines longLineInput)
        = (0, NewProxiesManager) := by
  have hscan : scanLines longLineInput = [] := by
    unfold scanLines
    rw [rawLinesAux_longLineInput]
    have hlong : ¬ ((fun l : List Char => decide (l.length < maxScanTokenSize))
        (List.replicate 65536 'a') = true) := by
      dsimp only
      rw [List.length_replicate]
      decide
    have htake := @List.takeWhile_cons_of_neg _
      (fun l : List Char => decide (l.length < maxScanTokenSize))
      (List.replicate 65536 'a') ["1.2.3.4:8080".data] hlong
    rw [htake]
    rfl
  refine ⟨?_, by decide, hscan, ?_⟩
  · unfold inputLines
    rw [rawLinesAux_longLineInput]
    have hcr : dropCR (List.replicate 65536 'a') = List.replicate 65536 'a' := by
      unfold dropCR
      have hlast : (List.replicate 65536 'a').getLast? ≠ some '\r' := by
        intro h
        have hmem := List.mem_of_getLast?_eq_some h
        have := List.eq_of_mem_replicate hmem
        exact absurd this (by decide)
      rw [if_neg hlast]
    simp only [List.map_cons, List.map_nil, hcr]
    rfl
  · rw [hscan]
    rfl

/-! ## The side conditions in reachable states -/

theorem retryLoop_tryAttempts (client : Client) :
    ∀ (n i : Nat) (m : ProxiesManager) (last : DoResult) (tr : List Event) (r : CallResult),
      retryLoop client n i m last tr = Except.ok r →
      r.state.defaultProxyTryAttempts = m.defaultProxyTryAttempts := by
  intro n
  induction n with
  | zero =>
    intro i m last tr r hr
    rw [retryLoop_zero] at hr
    cases hr
    rfl
  | succ n ih =>
    intro i m last tr r hr
    cases hp : (Proxy m).1 with
    | error e =>
      rw [retryLoop_hook_panic client n i m last tr e hp] at hr
      cases hr
    | ok p =>
      rw [retryLoop_step client n i m last tr p hp] at hr
      split at hr
      · cases hr
        rfl
      · rw [ih _ _ _ _ r hr, Next_tryAttempts]

theorem proxiedRequest_tryAttempts (client : Client) (m : ProxiesManager) (r : CallResult)
    (hr : proxiedRequest client m = Except.ok r) :
    r.state.defaultProxyTryAttempts = m.defaultProxyTryAttempts := by
  unfold proxiedRequest at hr
  split at hr
  · cases hr
    rfl
  · exact retryLoop_tryAttempts client _ _ _ _ _ r hr

/-- The exported operations leave the retry multiplier at its initial value 2 or at a
value below 1: the field is written only by `NewProxiesManager` and by
`DefaultTryAttempts` with a count below 1. -/
theorem Reachable_multiplier (m : ProxiesManager) (h : Reachable m) :
    m.defaultProxyTryAttempts = 2 ∨ m.defaultProxyTryAttempts < 1 := by
  induction h with
  | init => exact Or.inl rfl
  | defaultScheme m scheme _ ih =>
    unfold DefaultScheme
    dsimp only
    split <;> exact ih
  | defaultTryAttempts m count _ ih =>
    by_cases hc : count < 1
    · rw [DefaultTryAttempts_lt_one m count hc]
      exact Or.inr hc
    · rw [DefaultTryAttempts_ge_one m count (by omega)]
      exact ih
  | insertProxies m proxies _ ih => exact ih
  | loadFromBuff parse m lines _ ih =>
    rw [(loadFromBuff_appends_accepted parse m lines).1]
    exact ih
  | next m _ ih =>
    rw [Next_tryAttempts]
    exact ih
  | nextProxy m _ ih =>
    unfold NextProxy
    rw [Proxy_state, Next_tryAttempts]
    exact ih
  | selectRandom m m1 seed _ hsel ih =>
    by_cases hm : m.proxies = []
    · rw [SelectRandom_of_nil m seed hm] at hsel
      cases hsel
    · rw [(SelectRandom_of_ne_nil m seed hm).1] at hsel
      cases hsel
      exact ih
  | callRequest fresh httpClient m r _ hr ih =>
    have hk : r.state.defaultProxyTryAttempts = m.defaultProxyTryAttempts := by
      cases httpClient with
      | none => exact proxiedRequest_tryAttempts fresh m r hr
      | some c => exact proxiedRequest_tryAttempts c m r hr
    rw [hk]
    exact ih

/-- In a state that the exported operations produce, with a multiplier of at least 0
and a pool of fewer than `2^62` elements, the product of the loop bound is within the
range of `int`. -/
theorem Reachable_bound_in_range (m : ProxiesManager) (h : Reachable m)
    (hk : 0 ≤ m.defaultProxyTryAttempts) (hfit : 2 * Count m ≤ intMax) :
    m.defaultProxyTryAttempts * Count m ≤ intMax := by
  rcases Reachable_multiplier m h with h2 | h1
  · rw [h2]
    exact hfit
  · have hz : m.defaultProxyTryAttempts = 0 := by omega
    rw [hz, Int.zero_mul]
    decide

/-- With the cursor outside the pool the hook of the first attempt panics on its index
expression, and the panic unwinds `proxiedRequest`. -/
theorem proxiedRequest_stray_cursor_panics :
    proxiedRequest alwaysFail strayCursor = Except.error "index out of range" := by
  decide

end proxiesmanager
